import Mathlib

/-!
Verification development for the wscan crawler.

This file gives a shallow embedding, in Lean 4, of the parts of the wscan
source that the verified properties talk about:

* `src/core/ws_util.c`   — string helpers (`ws_trim_whitespace`, `ws_strcasecmp`);
* `src/core/ws_cookie.c` — the cookie jar (`parse_set_cookie_string`,
  `ws_cookie_jar_parse_set_cookie_headers`, `is_domain_match`, `is_path_match`,
  `ws_cookie_jar_get_cookie_header_string`);
* `src/core/ws_url.c`    — URL utilities (`parse_url_parts`, `ws_url_resolve`);
* `src/core/ws_crawl.c`  — the crawl coordinator (`ws_crawler_add_url`,
  `s_crawler_dispatch_requests`, `ws_crawl_http_complete_cb`);
* `src/core/ws_http.c`   — the completion drain (`s_process_curl_messages`);
* `src/core/ws_event.c`  — the reactor (`ws_event_internal_cb`, `ws_event_del`).

C strings are modelled as `List Char` (`CStr`); `time_t` and C integer values
are modelled as `Int` (no arithmetic in the verified properties comes close to
overflowing the 64-bit types the source uses).  Heap allocation is modelled as
infallible: every `zmalloc`/`strdup` failure path in the source merely aborts
the current operation, and no claim is about allocation failure.  Stateful code
(the crawler and the reactor) is modelled as explicit state passing plus a step
relation.
-/

namespace Wscan

/-- C string: a NUL-free char sequence. -/
abbrev CStr := List Char

/-- Shorthand to turn a Lean string literal into the `CStr` model. -/
def str (s : String) : CStr := s.data

/-! ### ws_util.c -/

/-- C `isspace` on the default locale: space, tab, newline, vertical tab,
form feed, carriage return. -/
def c_isspace (c : Char) : Bool :=
  c = ' ' || c = '\t' || c = '\n' || c = Char.ofNat 11 || c = Char.ofNat 12 || c = '\r'

/-- C `tolower` on the default locale: maps `A`–`Z` to `a`–`z`, leaves
everything else unchanged. -/
def c_tolower (c : Char) : Char :=
  if 'A' ≤ c ∧ c ≤ 'Z' then Char.ofNat (c.toNat + 32) else c

/-- `ws_trim_whitespace` (ws_util.c): strip leading and trailing `isspace`
characters.  The C function works in place by advancing the start pointer and
writing a NUL; the result string is what we model. -/
def ws_trim_whitespace (s : CStr) : CStr :=
  ((s.dropWhile c_isspace).reverse.dropWhile c_isspace).reverse

/-- `ws_strcasecmp(s1, s2) == 0` (ws_util.c): the two strings are equal after
mapping every character through `tolower`. -/
def ws_strcaseeq (s1 s2 : CStr) : Bool :=
  decide (s1.map c_tolower = s2.map c_tolower)

/-- First occurrence of a character, as an index (C `strchr`). -/
def idxOfChar (c : Char) : CStr → Option Nat
  | [] => none
  | x :: rest => if x = c then some 0 else (idxOfChar c rest).map (· + 1)

/-- Last occurrence of a character, as an index (C `strrchr`). -/
def lastIdxOfChar (c : Char) (l : CStr) : Option Nat :=
  match idxOfChar c l.reverse with
  | some k => some (l.length - 1 - k)
  | none => none

/-- First occurrence of a substring, as an index (C `strstr`). -/
def findSubIdx (pat : CStr) : CStr → Option Nat
  | [] => if pat = [] then some 0 else none
  | x :: rest =>
    if pat = (x :: rest).take pat.length then some 0
    else (findSubIdx pat rest).map (· + 1)

/-- Split a string at every occurrence of a separator character.  This is the
`strchr`-driven tokenisation loop the cookie parser uses: `"a;;b"` gives
`["a", "", "b"]`, a trailing separator yields a final empty token. -/
def splitOnCharAux (sep : Char) : CStr → CStr → List CStr
  | [], acc => [acc.reverse]
  | c :: rest, acc =>
    if c = sep then acc.reverse :: splitOnCharAux sep rest []
    else splitOnCharAux sep rest (c :: acc)

/-- See `splitOnCharAux`. -/
def splitOnChar (sep : Char) (l : CStr) : List CStr := splitOnCharAux sep l []

/-- Split at the first occurrence of a character: `some (before, after)` if the
character occurs, `none` otherwise (C `strchr` + NUL-punch idiom). -/
def splitFirst (sep : Char) : CStr → Option (CStr × CStr)
  | [] => none
  | c :: rest =>
    if c = sep then some ([], rest)
    else (splitFirst sep rest).map (fun p => (c :: p.1, p.2))

/-- Value of the maximal leading run of decimal digits (helper for `strtoll`
and `atoi`). -/
def leadingDigitsVal : CStr → Nat → Nat
  | [], acc => acc
  | c :: rest, acc =>
    if '0' ≤ c ∧ c ≤ '9' then leadingDigitsVal rest (10 * acc + (c.toNat - 48))
    else acc

/-- C `strtoll(s, NULL, 10)` / `atoi(s)`: skip leading whitespace, read an
optional sign, then the longest run of digits; no digits gives `0`.  The
64-bit clamping of the C function is not modelled — no input in this
development comes near the bound. -/
def strtoll10 (l : CStr) : Int :=
  match l.dropWhile c_isspace with
  | '-' :: rest => -(Int.ofNat (leadingDigitsVal rest 0))
  | '+' :: rest => Int.ofNat (leadingDigitsVal rest 0)
  | other => Int.ofNat (leadingDigitsVal other 0)

/-! ### ws_cookie.c — data model

`ws_cookie` (ws_cookie.h): one cookie.  `expires = 0` means session cookie.
The jar is a case-insensitively keyed map from domains to a case-sensitively
keyed map from paths to an insertion-ordered cookie list.  The red-black
trees of the source are modelled as association lists with unique keys; tree
iteration order (sorted) differs from list order, but every verified property
is insensitive to the enumeration order of the buckets. -/

structure ws_cookie where
  name : CStr
  value : CStr
  domain : CStr
  path : CStr
  expires : Int
  secure : Bool
  httponly : Bool
deriving DecidableEq, Repr

/-- One `(path → cookie list)` entry of a domain's `path_cookies` tree. -/
structure ws_path_map_item where
  path_key : CStr
  cookies : List ws_cookie
deriving DecidableEq, Repr

/-- One `(domain → path map)` entry of the jar's `domain_map` tree. -/
structure ws_domain_cookies where
  domain : CStr
  path_cookies : List ws_path_map_item
deriving DecidableEq, Repr

/-- The cookie jar. -/
structure ws_cookie_jar where
  domain_map : List ws_domain_cookies
deriving DecidableEq, Repr

/-- `ws_cookie_jar_new`: an empty jar. -/
def ws_cookie_jar_new : ws_cookie_jar := ⟨[]⟩

/-! ### ws_cookie.c — parsing one Set-Cookie value

`parse_set_cookie_string` takes the raw header value plus the default domain
and path (the request host and path).  The HTTP-date parser
`ws_parse_http_date` is abstracted as a function parameter `pd` (it returns a
`time_t`, `0` on failure); no verified property depends on its behaviour, and
the `Expires` attribute is the only consumer.  `now` is the value of
`time(NULL)` at parse time (consumed by `Max-Age`). -/

/-- One iteration of the attribute loop of `parse_set_cookie_string`
(ws_cookie.c:267-318): split the chunk at its first `=`, trim name and value,
and apply the recognised attribute case-insensitively. -/
def applyCookieAttr (pd : CStr → Int) (now : Int) (c : ws_cookie) (chunk : CStr) : ws_cookie :=
  match splitFirst '=' chunk with
  | some (n0, v0) =>
    let an := ws_trim_whitespace n0
    let av := ws_trim_whitespace v0
    if ws_strcaseeq an (str "Domain") then
      { c with domain := if av.take 1 = str "." then av.drop 1 else av }
    else if ws_strcaseeq an (str "Path") then
      { c with path := av }
    else if ws_strcaseeq an (str "Expires") then
      { c with expires := pd av }
    else if ws_strcaseeq an (str "Max-Age") then
      let m := strtoll10 av
      if 0 ≤ m then { c with expires := now + m } else { c with expires := 1 }
    else if ws_strcaseeq an (str "Secure") then
      { c with secure := true }
    else if ws_strcaseeq an (str "HttpOnly") then
      { c with httponly := true }
    else c
  | none =>
    let an := ws_trim_whitespace chunk
    if ws_strcaseeq an (str "Secure") then { c with secure := true }
    else if ws_strcaseeq an (str "HttpOnly") then { c with httponly := true }
    else c

/-- `parse_set_cookie_string` (ws_cookie.c:206-322): the first `;`-separated
segment must be `name=value` (otherwise the whole header is invalid and
`NULL` is returned); the remaining segments are attributes folded over the
cookie in order, so a later attribute wins (`Max-Age` after `Expires`
overwrites `expires`). -/
def parse_set_cookie_string (pd : CStr → Int) (now : Int)
    (cookie_str default_domain default_path : CStr) : Option ws_cookie :=
  match splitOnChar ';' cookie_str with
  | [] => none
  | nv :: attrs =>
    match splitFirst '=' nv with
    | none => none
    | some (n, v) =>
      let c0 : ws_cookie :=
        { name := ws_trim_whitespace n
        , value := ws_trim_whitespace v
        , domain := default_domain
        , path := default_path
        , expires := 0
        , secure := false
        , httponly := false }
      some (attrs.foldl (applyCookieAttr pd now) c0)

/-! ### ws_cookie.c — storage -/

/-- The storage-time domain validation (ws_cookie.c:353-379): drop the cookie
unless the request host is at least as long as the cookie domain and either
equals it case-insensitively or ends with `.` followed by it
case-insensitively.  (The source spells the final suffix comparison with the
identifier `req_len`; the surrounding declarations and the worked comment at
lines 366-370 fix the intended variable as `req_host_len`, which is what is
modelled.) -/
def storeDomainOk (request_host cookie_domain : CStr) : Bool :=
  if request_host.length < cookie_domain.length then false
  else
    ws_strcaseeq request_host cookie_domain ||
    (decide (request_host.length > cookie_domain.length) &&
     (request_host[request_host.length - cookie_domain.length - 1]? == some '.') &&
     ws_strcaseeq (request_host.drop (request_host.length - cookie_domain.length)) cookie_domain)

/-- Step C of storage (ws_cookie.c:507-525): within a `(domain, path)` bucket,
if a cookie with the same name (case-insensitive) exists, remove it and append
the new cookie at the tail; otherwise just append at the tail. -/
def upsertCookie : List ws_cookie → ws_cookie → List ws_cookie
  | [], c => [c]
  | e :: rest, c =>
    if ws_strcaseeq e.name c.name then rest ++ [c]
    else e :: upsertCookie rest c

/-- Steps A/B of storage: find-or-create the path entry inside a domain's
path tree (`rbFind` with case-sensitive `strcmp`, then `rbProbe`); a fresh
entry gets the cookie's path string as its key and an empty bucket. -/
def updatePathList : List ws_path_map_item → ws_cookie → List ws_path_map_item
  | [], c => [⟨c.path, upsertCookie [] c⟩]
  | p :: rest, c =>
    if p.path_key = c.path then ⟨p.path_key, upsertCookie p.cookies c⟩ :: rest
    else p :: updatePathList rest c

/-- Steps A/B of storage: find-or-create the domain entry in the jar's domain
tree (`rbFind` with case-insensitive `ws_strcasecmp`, then `rbProbe`); a
fresh entry gets the cookie's domain string as its key. -/
def updateDomainList : List ws_domain_cookies → ws_cookie → List ws_domain_cookies
  | [], c => [⟨c.domain, updatePathList [] c⟩]
  | e :: rest, c =>
    if ws_strcaseeq e.domain c.domain then
      ⟨e.domain, updatePathList e.path_cookies c⟩ :: rest
    else e :: updateDomainList rest c

/-- The loop body of `ws_cookie_jar_parse_set_cookie_headers`
(ws_cookie.c:338-526) for one `Set-Cookie` header value: parse, validate the
domain, reject a `Secure` cookie received over plain HTTP, then store.  (The
source's `else` branch that re-adopts the request host when the parsed cookie
has a NULL domain is unreachable: `parse_set_cookie_string` always sets a
domain.)  `now` is `time(NULL)` at parse time. -/
def acceptSetCookie (pd : CStr → Int) (jar : ws_cookie_jar)
    (request_host request_path : CStr) (is_https : Bool)
    (header_value : CStr) (now : Int) : ws_cookie_jar :=
  match parse_set_cookie_string pd now header_value request_host request_path with
  | none => jar
  | some c =>
    if !(storeDomainOk request_host c.domain) then jar
    else if c.secure && !is_https then jar
    else ⟨updateDomainList jar.domain_map c⟩

/-- `ws_cookie_jar_parse_set_cookie_headers`: fold the loop body over the
response's `Set-Cookie` header values in order. -/
def ws_cookie_jar_parse_set_cookie_headers (pd : CStr → Int) (jar : ws_cookie_jar)
    (request_host request_path : CStr) (is_https : Bool)
    (headers : List CStr) (now : Int) : ws_cookie_jar :=
  headers.foldl (fun j h => acceptSetCookie pd j request_host request_path is_https h now) jar

/-! ### ws_cookie.c — Cookie header assembly -/

/-- `is_domain_match` (ws_cookie.c:531-551): the request host matches a stored
cookie domain iff they are case-insensitively equal, or the host is longer,
the character just before the would-be suffix is `.`, and the suffix equals
the cookie domain case-insensitively. -/
def is_domain_match (request_host cookie_domain : CStr) : Bool :=
  ws_strcaseeq request_host cookie_domain ||
  (decide (request_host.length > cookie_domain.length) &&
   (request_host[request_host.length - cookie_domain.length - 1]? == some '.') &&
   ws_strcaseeq (request_host.drop (request_host.length - cookie_domain.length)) cookie_domain)

/-- `is_path_match` (ws_cookie.c:554-582): exact match, or the cookie path is
a leading segment of the request path — either the cookie path is empty or
ends in `/`, or the next request-path character is `/` (the equal-length case
is re-checked for safety, as in the source). -/
def is_path_match (request_path cookie_path : CStr) : Bool :=
  if request_path = cookie_path then true
  else if decide (request_path.length ≥ cookie_path.length) &&
          decide (request_path.take cookie_path.length = cookie_path) then
    if cookie_path.length = 0 || (cookie_path.getLast? == some '/') then true
    else if (request_path[cookie_path.length]? == some '/') ||
            decide (request_path.length = cookie_path.length) then true
    else false
  else false

/-- Expiry test of the assembly loop (ws_cookie.c:633): a cookie is purged
when `expires > 0 && expires < now`. -/
def cookieExpired (now : Int) (c : ws_cookie) : Bool :=
  decide (0 < c.expires) && decide (c.expires < now)

/-- The inner `TAILQ_FOREACH` of `ws_cookie_jar_get_cookie_header_string`
(ws_cookie.c:631-650) over one bucket: expired cookies are removed from the
bucket and skipped; `Secure` cookies are skipped over plain HTTP but kept;
every other cookie is emitted (first component) and kept (second component),
in bucket order. -/
def scanCookieList (now : Int) (is_https : Bool) : List ws_cookie → List ws_cookie × List ws_cookie
  | [] => ([], [])
  | c :: rest =>
    let r := scanCookieList now is_https rest
    if cookieExpired now c then r
    else if c.secure && !is_https then (r.1, c :: r.2)
    else (c :: r.1, c :: r.2)

/-- The path-tree iteration of the assembly (ws_cookie.c:620-652): buckets
whose path matches the request path are scanned, the others are untouched. -/
def processPaths (request_path : CStr) (now : Int) (is_https : Bool) :
    List ws_path_map_item → List ws_cookie × List ws_path_map_item
  | [] => ([], [])
  | p :: rest =>
    let r := processPaths request_path now is_https rest
    if is_path_match request_path p.path_key then
      let s := scanCookieList now is_https p.cookies
      (s.1 ++ r.1, ⟨p.path_key, s.2⟩ :: r.2)
    else (r.1, p :: r.2)

/-- The domain-tree iteration of the assembly (ws_cookie.c:611-654): domains
matching the request host have their path trees processed, the others are
untouched. -/
def processDomains (request_host request_path : CStr) (now : Int) (is_https : Bool) :
    List ws_domain_cookies → List ws_cookie × List ws_domain_cookies
  | [] => ([], [])
  | d :: rest =>
    let r := processDomains request_host request_path now is_https rest
    if is_domain_match request_host d.domain then
      let s := processPaths request_path now is_https d.path_cookies
      (s.1 ++ r.1, ⟨d.domain, s.2⟩ :: r.2)
    else (r.1, d :: r.2)

/-- The `name=value` text appended to the output buffer for one emitted
cookie (ws_cookie.c:649). -/
def cookiePair (c : ws_cookie) : CStr := c.name ++ '=' :: c.value

/-- The evbuffer accumulation of the assembly (ws_cookie.c:646-649): append
each emitted cookie's `name=value`, preceded by `"; "` whenever the buffer is
already non-empty. -/
def buildCookieString : List ws_cookie → CStr → CStr
  | [], acc => acc
  | c :: rest, acc =>
    buildCookieString rest
      (if acc.length > 0 then acc ++ str "; " ++ cookiePair c else acc ++ cookiePair c)

/-- `ws_cookie_jar_get_cookie_header_string` (ws_cookie.c:588-667): walk the
jar, emit the matching live cookies into a buffer, purge expired cookies from
the visited buckets, and return `NULL` (here `none`) when the buffer stayed
empty.  The function both returns the header string and mutates the jar; the
model returns the pair.  `now` is `time(NULL)` at assembly time. -/
def ws_cookie_jar_get_cookie_header_string (jar : ws_cookie_jar)
    (request_host request_path : CStr) (is_https : Bool) (now : Int) :
    Option CStr × ws_cookie_jar :=
  let r := processDomains request_host request_path now is_https jar.domain_map
  let s := buildCookieString r.1 []
  (if s.length = 0 then none else some s, ⟨r.2⟩)

/-! ### ws_url.c — URL utilities -/

/-- Result of `parse_url_parts` (ws_url.c:46-113).  `port = 0` means no (or
default) port. -/
structure UrlParts where
  protocol : CStr
  hostname : CStr
  port : Int
  path : CStr
deriving DecidableEq, Repr

/-- The `effective_end` computation of `parse_url_parts` (ws_url.c:72-76):
each candidate separator position replaces the current one when it is present
and strictly earlier. -/
def earlierOpt (cand cur : Option Nat) : Option Nat :=
  match cand, cur with
  | some p, none => some p
  | some p, some e => if p < e then some p else some e
  | none, e => e

/-- `parse_url_parts` (ws_url.c:46-113): split off the protocol at the first
`"://"` (defaulting to `http`), cut the hostname at the earliest of
`/ : ? #`, read the port after a `:` that precedes the path, and take the
path from the first `/`.  Two quirks of the source are preserved faithfully:
a C pointer comparison against `NULL` is false, so when there is no `?` the
port scan runs to the end of the string and the path keeps any `?`-query when
there is no `#`-fragment; and where the C would form a negative `strndup`
length (undefined behaviour) the model's truncated `Nat` subtraction yields
the empty string. -/
def parse_url_parts (url : CStr) : UrlParts :=
  let pt : CStr × CStr :=
    match findSubIdx (str "://") url with
    | some i => (url.take i, url.drop (i + 3))
    | none => (str "http", url)
  let protocol := pt.1
  let temp := pt.2
  let host_end := idxOfChar '/' temp
  let port_sep := idxOfChar ':' temp
  let query_sep := idxOfChar '?' temp
  let fragment_sep := idxOfChar '#' temp
  let ee := earlierOpt fragment_sep (earlierOpt query_sep (earlierOpt port_sep host_end))
  let hostname := match ee with | some i => temp.take i | none => temp
  let port : Int :=
    match port_sep with
    | none => 0
    | some ps =>
      let inHostPart := match host_end with | none => true | some h => decide (ps < h)
      if inHostPart then
        let pse1 : Option Nat :=
          match host_end, query_sep with
          | some h, some q => if h < q then some h else some q
          | some _, none => none
          | none, q => q
        let pse2 : Option Nat :=
          match pse1 with
          | some e => some e
          | none =>
            match fragment_sep with
            | some f => if ps < f then some f else none
            | none => none
        let pe := match pse2 with | some e => e | none => temp.length
        strtoll10 ((temp.drop (ps + 1)).take (pe - (ps + 1)))
      else 0
  let path : CStr :=
    match host_end with
    | some h =>
      let pend1 : Option Nat :=
        match query_sep, fragment_sep with
        | some q, some f => if q < f then some q else some f
        | some _, none => none
        | none, f => f
      let pe := match pend1 with | some e => e | none => temp.length
      (temp.drop h).take (pe - h)
    | none => str "/"
  ⟨protocol, hostname, port, path⟩

/-- Start of the maximal run of `/` characters ending just before index `i`
(helper for the glibc `dirname` algorithm). -/
def runStartSlash (l : CStr) : Nat → Nat
  | 0 => 0
  | i + 1 => if l.getD i ' ' = '/' then runStartSlash l i else i + 1

/-- POSIX `dirname` as implemented by glibc (the source calls the libc
function on the base path, ws_url.c:254): ignore trailing slashes, cut at the
last remaining `/`; no `/` gives `"."`, a cut at the start gives `"/"` (or
`"//"` for a double-slash root). -/
def c_dirname (p : CStr) : CStr :=
  match lastIdxOfChar '/' p with
  | none => str "."
  | some i0 =>
    let i1 : Option Nat :=
      if i0 ≠ 0 ∧ i0 = p.length - 1 then
        let j := runStartSlash p i0
        if j ≠ 0 then lastIdxOfChar '/' (p.take j) else some i0
      else some i0
    match i1 with
    | none => str "."
    | some i =>
      let j := runStartSlash p i
      if j = 0 then (if i = 1 then p.take 2 else p.take 1)
      else p.take i

/-- The `":port"` text `ws_url_resolve` re-appends (ws_url.c:276-281 and
302-306): present only when the parsed port is non-zero and is not the
default port of the protocol. -/
def resolvePortString (parts : UrlParts) : CStr :=
  if parts.port ≠ 0 ∧
     ¬ ((parts.protocol = str "http" ∧ parts.port = 80) ∨
        (parts.protocol = str "https" ∧ parts.port = 443)) then
    ':' :: (toString parts.port).data
  else []

/-- `ws_url_resolve` (ws_url.c:217-317).  A relative URL containing `"://"`
or starting with `"//"` is returned verbatim (`strdup`).  Otherwise the base
is parsed; a root-relative URL replaces the whole base path, anything else is
joined onto `dirname` of the base path with a `/`; the result is rebuilt as
`protocol "://" hostname [":" port] path`.  (The source's NULL-protocol check
after `parse_url_parts` can only fire on allocation failure, which is not
modelled.) -/
def ws_url_resolve (base_url relative_url : CStr) : CStr :=
  if (findSubIdx (str "://") relative_url).isSome ∨ relative_url.take 2 = str "//" then
    relative_url
  else
    let parts := parse_url_parts base_url
    let resolved_path :=
      if relative_url.headD ' ' = '/' then relative_url
      else c_dirname parts.path ++ '/' :: relative_url
    parts.protocol ++ str "://" ++ parts.hostname ++ resolvePortString parts ++ resolved_path

/-! ### ws_crawl.c — the crawl coordinator

`ws_crawler` state (ws_crawl.c:59-82), with ghost fields recording the
externally visible history: `submitted` logs every URL handed to
`ws_http_get` (in order), `inflight` the submissions not yet completed,
`pages`/`errors` the completion-callback invocations.  The URL queue is the
frontier FIFO (head = front); `visited_urls` is the visited array;
`url_queue_size` of the source is the length of the queue list.  The link
extractor and resolver pipeline is an external collaborator: a completion
event carries the list of already-resolved candidate URLs it produced.
Whether `ws_http_get` succeeds for a given URL is environment-determined and
is modelled by an oracle `submitOk`. -/

structure ws_crawler where
  max_concurrent_requests : Int
  active_requests : Int
  url_queue : List CStr
  visited_urls : List CStr
  submitted : List CStr
  inflight : List CStr
  pages : List (CStr × Int)
  errors : List (CStr × Int)
  stopped : Bool
deriving DecidableEq, Repr

/-- `ws_crawler_new` (ws_crawl.c:538-592): rejects a non-positive concurrency
cap; a fresh crawler has an empty queue, empty visited set and no active
requests. -/
def ws_crawler_new (max_concurrent_requests : Int) : Option ws_crawler :=
  if max_concurrent_requests ≤ 0 then none
  else some
    { max_concurrent_requests := max_concurrent_requests
    , active_requests := 0
    , url_queue := []
    , visited_urls := []
    , submitted := []
    , inflight := []
    , pages := []
    , errors := []
    , stopped := false }

/-- `ws_crawler_is_visited` (ws_crawl.c:162-172): linear scan with exact
`strcmp` equality. -/
def ws_crawler_is_visited (s : ws_crawler) (url : CStr) : Bool :=
  s.visited_urls.contains url

/-- `ws_crawler_add_url` (ws_crawl.c:594-638): reject an empty URL, drop an
already-visited URL, otherwise append to the frontier tail.  Returns the new
state and the source's `bool` result.  The function never touches the visited
set — discovered URLs are marked visited at dispatch time only. -/
def ws_crawler_add_url (s : ws_crawler) (url : CStr) : ws_crawler × Bool :=
  if url.length = 0 then (s, false)
  else if ws_crawler_is_visited s url then (s, false)
  else ({ s with url_queue := s.url_queue ++ [url] }, true)

/-- The post-loop check of `s_crawler_dispatch_requests` (ws_crawl.c:532-535):
with no active requests and an empty queue, stop the event loop. -/
def dispatchFinish (s : ws_crawler) : ws_crawler :=
  if s.active_requests = 0 ∧ s.url_queue = [] then { s with stopped := true } else s

/-- `s_crawler_dispatch_requests` (ws_crawl.c:471-536): while a slot is free
and the queue is non-empty, pop the head; skip it if visited; otherwise mark
it visited, build a task and submit it via `ws_http_get` (`submitOk` says
whether the submission succeeds), incrementing `active_requests` on success.
Allocation-failure skip paths are not modelled (allocation is infallible in
the model). -/
def s_crawler_dispatch_requests (submitOk : CStr → Bool) (s : ws_crawler) : ws_crawler :=
  match _hq : s.url_queue with
  | [] => dispatchFinish s
  | url :: rest =>
    if s.active_requests < s.max_concurrent_requests then
      let s1 := { s with url_queue := rest }
      if ws_crawler_is_visited s1 url then
        s_crawler_dispatch_requests submitOk s1
      else
        let s2 := { s1 with visited_urls := s1.visited_urls ++ [url] }
        if submitOk url then
          s_crawler_dispatch_requests submitOk
            { s2 with
              submitted := s2.submitted ++ [url]
            , inflight := s2.inflight ++ [url]
            , active_requests := s2.active_requests + 1 }
        else
          s_crawler_dispatch_requests submitOk s2
    else dispatchFinish s
termination_by s.url_queue.length
decreasing_by
  all_goals simp_all

/-- `ws_crawl_http_complete_cb` (ws_crawl.c:395-466): decrement the active
count; on library success with a 2xx status invoke the page callback and feed
each extracted-and-resolved link to `ws_crawler_add_url`; otherwise invoke
the error callback.  The ghost `inflight` entry of the transfer is retired. -/
def ws_crawl_http_complete_cb (s : ws_crawler) (url : CStr) (curl_ok : Bool)
    (http_code : Int) (links : List CStr) : ws_crawler :=
  let s0 := { s with active_requests := s.active_requests - 1
                   , inflight := s.inflight.erase url }
  if curl_ok then
    if 200 ≤ http_code ∧ http_code < 300 then
      let s1 := { s0 with pages := s0.pages ++ [(url, http_code)] }
      links.foldl (fun st l => (ws_crawler_add_url st l).1) s1
    else { s0 with errors := s0.errors ++ [(url, http_code)] }
  else { s0 with errors := s0.errors ++ [(url, http_code)] }

/-- One externally observable event of a crawl run: a user call to
`ws_crawler_add_url`, a dispatch-timer fire running the dispatch loop, or a
transfer completion (which can only happen for an in-flight transfer). -/
inductive CrawlerStep (submitOk : CStr → Bool) : ws_crawler → ws_crawler → Prop
  | add_url (s : ws_crawler) (url : CStr) :
      CrawlerStep submitOk s (ws_crawler_add_url s url).1
  | dispatch (s : ws_crawler) :
      CrawlerStep submitOk s (s_crawler_dispatch_requests submitOk s)
  | complete (s : ws_crawler) (url : CStr) (curl_ok : Bool) (http_code : Int)
      (links : List CStr) (hin : url ∈ s.inflight) :
      CrawlerStep submitOk s (ws_crawl_http_complete_cb s url curl_ok http_code links)

/-- States reachable from an initial crawler by crawl events. -/
def CrawlerReachable (submitOk : CStr → Bool) (init s : ws_crawler) : Prop :=
  Relation.ReflTransGen (CrawlerStep submitOk) init s

/-! ### ws_http.c / ws_crawl.c — terminal callbacks of one transfer -/

/-- The gate in `s_process_curl_messages` (ws_http.c:305-314): the user
completion callback of a finished transfer is invoked iff the transfer is not
flagged cancelled and a completion callback is set.  (`ws_http_cancel_request`
additionally removes the easy handle, so a cancelled transfer normally never
even reaches this drain; the flag makes the suppression unconditional.) -/
def s_process_message_invokes (cancelled has_complete_cb : Bool) : Bool :=
  !cancelled && has_complete_cb

/-- The branch structure of `ws_crawl_http_complete_cb` (ws_crawl.c:408-455):
which of the crawler's two user callbacks the completion handler selects —
the page callback iff the transfer-library result is OK and the HTTP status
is in `[200, 300)`, the error callback otherwise. -/
def ws_crawl_complete_selects (curl_ok : Bool) (http_code : Int) : Bool × Bool :=
  if curl_ok then
    if 200 ≤ http_code ∧ http_code < 300 then (true, false) else (false, true)
  else (false, true)

/-- Terminal user callbacks fired for one transfer submitted by the crawler:
the HTTP client's drain gate composed with the crawler's completion handler,
each callback further guarded by its NULL check (`page_cb_set`,
`error_cb_set`).  The crawler always installs a completion callback
(`ws_http_get` is called with `ws_crawl_http_complete_cb`, ws_crawl.c:518). -/
def transfer_terminal_callbacks (page_cb_set error_cb_set cancelled curl_ok : Bool)
    (http_code : Int) : Bool × Bool :=
  if s_process_message_invokes cancelled true then
    let sel := ws_crawl_complete_selects curl_ok http_code
    (sel.1 && page_cb_set, sel.2 && error_cb_set)
  else (false, false)

/-! ### ws_event.c — the reactor

`ws_event_handle` for normal (I/O) and time events (the HTTP-request event
type of this file belongs to the alternative libevent-http integration and is
outside every claim).  The red-black tree of handles keyed by the unique
`next_event_id` counter is modelled as a list; `fire_log` is a ghost log of
callback invocations `(handle id, persistent flag)`. -/

inductive WsEvType where
  | normal
  | time
deriving DecidableEq, Repr

/-- A reactor event handle (ws_event.h): unique id, kind, persistence. -/
structure ws_event_handle where
  id : Nat
  ty : WsEvType
  is_persistent : Bool
deriving DecidableEq, Repr

/-- Reactor state (`ws_event_base`). -/
structure ws_event_base where
  next_event_id : Nat
  events : List ws_event_handle
  fire_log : List (Nat × Bool)
deriving DecidableEq, Repr

/-- `ws_event_new` (ws_event.c:243-289): ids start at 1, no events. -/
def ws_event_base_new : ws_event_base :=
  { next_event_id := 1, events := [], fire_log := [] }

/-- `ws_event_del` (ws_event.c:314-328): remove the handle from the tree
(`rbDelete` by its unique id) and free it together with its libevent event
(`ws_rb_item_func`: `event_del` + `event_free` + `zfree`). -/
def ws_event_del (we : ws_event_base) (h : ws_event_handle) : ws_event_base :=
  { we with events := we.events.eraseP (fun e => e.id == h.id) }

/-- `ws_event_internal_cb` (ws_event.c:108-134): run the user callback
(recorded in the ghost log), then — for both the normal and the time arm of
the switch — delete the handle via `ws_event_del` when it is not
persistent. -/
def ws_event_internal_cb (we : ws_event_base) (h : ws_event_handle) : ws_event_base :=
  let we1 := { we with fire_log := we.fire_log ++ [(h.id, h.is_persistent)] }
  match h.ty with
  | WsEvType.normal => if !h.is_persistent then ws_event_del we1 h else we1
  | WsEvType.time => if !h.is_persistent then ws_event_del we1 h else we1

/-- `ws_event_add` / `ws_event_add_time` (ws_event.c:333-384, 606-656):
allocate a handle with the next fresh id, register it with libevent, insert
it into the tree.  Returns the new state and the handle. -/
def ws_event_register (we : ws_event_base) (ty : WsEvType) (is_persistent : Bool) :
    ws_event_base × ws_event_handle :=
  let h : ws_event_handle := ⟨we.next_event_id, ty, is_persistent⟩
  ({ we with next_event_id := we.next_event_id + 1, events := we.events ++ [h] }, h)

/-- One reactor event: registering a handle, libevent firing a registered
handle's callback (dispatch invokes `ws_event_internal_cb`), or an explicit
`ws_event_del` of a registered handle. -/
inductive ReactorStep : ws_event_base → ws_event_base → Prop
  | register (we : ws_event_base) (ty : WsEvType) (p : Bool) :
      ReactorStep we (ws_event_register we ty p).1
  | fire (we : ws_event_base) (h : ws_event_handle) (hmem : h ∈ we.events) :
      ReactorStep we (ws_event_internal_cb we h)
  | del (we : ws_event_base) (h : ws_event_handle) (hmem : h ∈ we.events) :
      ReactorStep we (ws_event_del we h)

/-- Reactor states reachable from a fresh event base. -/
def ReactorReachable (s : ws_event_base) : Prop :=
  Relation.ReflTransGen ReactorStep ws_event_base_new s

/-! ### Spec-side definitions and concrete instances -/

/-- A concrete instance of the abstracted HTTP-date parser parameter: the
parser that fails on every input (`ws_parse_http_date` returns `0` on
failure, leaving a session cookie).  Used for concrete evaluations whose
header values carry no `Expires` attribute. -/
def pd0 : CStr → Int := fun _ => 0

/-- Spec-side statement of domain matching ("the host equals the cookie
domain case-insensitively or the host ends with `.` followed by the cookie
domain case-insensitively"), written independently of the code's index
arithmetic, for comparison with `is_domain_match`. -/
def domainMatchSpec (host cookie_domain : CStr) : Prop :=
  host.map c_tolower = cookie_domain.map c_tolower ∨
  ∃ pre, host.map c_tolower = pre ++ '.' :: cookie_domain.map c_tolower

/-- Membership of a cookie in a jar: some domain entry holds some path entry
whose bucket contains it. -/
def jarHasCookie (jar : ws_cookie_jar) (d_key p_key : CStr) (c : ws_cookie) : Prop :=
  ∃ d ∈ jar.domain_map, d.domain = d_key ∧
    ∃ p ∈ d.path_cookies, p.path_key = p_key ∧ c ∈ p.cookies

/-- The cookie stored by the concrete `Max-Age=0` scenario of claim C7. -/
def maxAgeZeroCookie : ws_cookie :=
  { name := str "a", value := str "1", domain := str "example.com"
  , path := str "/", expires := 1000, secure := false, httponly := false }

/-- A cookie that is expired at assembly time 1000 but lives in a bucket that
does not match a request to `example.com` (claim C6's non-visited bucket). -/
def expiredOtherCookie : ws_cookie :=
  { name := str "x", value := str "9", domain := str "other.com"
  , path := str "/", expires := 5, secure := false, httponly := false }

/-- A jar holding only `expiredOtherCookie`. -/
def c6Jar : ws_cookie_jar :=
  ⟨[⟨str "other.com", [⟨str "/", [expiredOtherCookie]⟩]⟩]⟩

/-- The session cookie stored by the concrete round-trip scenario of claim
C3 (`Set-Cookie: a=1; Domain=example.com; Path=/` at `example.com`). -/
def roundTripCookie : ws_cookie :=
  { name := str "a", value := str "1", domain := str "example.com"
  , path := str "/", expires := 0, secure := false, httponly := false }

/-- Crawler invariant maintained by every crawl event: the submission log has
no duplicates, every submitted URL is in the visited set, the active-request
counter counts the in-flight transfers, and it never exceeds the parallelism
cap. -/
def CrawlInv (s : ws_crawler) : Prop :=
  s.submitted.Nodup ∧
  (∀ u ∈ s.submitted, u ∈ s.visited_urls) ∧
  s.active_requests = (s.inflight.length : Int) ∧
  s.active_requests ≤ s.max_concurrent_requests

/-- The crawler produced by `ws_crawler_new 2` (used by concrete runs). -/
def initCrawler : ws_crawler :=
  { max_concurrent_requests := 2
  , active_requests := 0
  , url_queue := []
  , visited_urls := []
  , submitted := []
  , inflight := []
  , pages := []
  , errors := []
  , stopped := false }

/-- Reactor invariant maintained by every reactor event: registered ids are
below the id counter and pairwise distinct, a registered non-persistent
handle has never fired, every logged fire used an already-allocated id, and
no non-persistent handle id occurs twice in the fire log. -/
def ReactorInv (s : ws_event_base) : Prop :=
  (∀ h ∈ s.events, h.id < s.next_event_id) ∧
  (s.events.map ws_event_handle.id).Nodup ∧
  (∀ h ∈ s.events, h.is_persistent = false → ∀ pr ∈ s.fire_log, pr.1 ≠ h.id) ∧
  (∀ pr ∈ s.fire_log, pr.1 < s.next_event_id) ∧
  (∀ i : Nat, (s.fire_log.filter (fun pr => pr.1 == i && pr.2 == false)).length ≤ 1)

/-! ## Theorems -/

/-! ### Character and string helper lemmas -/

theorem char_toNat_inj (a b : Char) (h : a.toNat = b.toNat) : a = b :=
  Char.eq_of_val_eq (UInt32.ext h)

theorem toNat_ofNat_valid (n : Nat) (hv : n.isValidChar) : (Char.ofNat n).toNat = n := by
  rw [Char.ofNat, dif_pos hv]
  rfl

theorem c_tolower_dot_iff (c : Char) : c_tolower c = '.' ↔ c = '.' := by
  unfold c_tolower
  split
  case isTrue h =>
    constructor
    · intro he
      exfalso
      have h1 : (65 : Nat) ≤ c.toNat := h.1
      have h2 : c.toNat ≤ 90 := h.2
      have hv : (c.toNat + 32).isValidChar := Or.inl (by omega)
      have hn := congrArg Char.toNat he
      rw [toNat_ofNat_valid _ hv] at hn
      have : c.toNat + 32 = 46 := hn
      omega
    · intro he
      subst he
      exact absurd h (by decide)
  case isFalse h => exact Iff.rfl

theorem ws_strcaseeq_iff (s1 s2 : CStr) :
    ws_strcaseeq s1 s2 = true ↔ s1.map c_tolower = s2.map c_tolower := by
  simp [ws_strcaseeq]

theorem ws_strcaseeq_length (s1 s2 : CStr) (h : ws_strcaseeq s1 s2 = true) :
    s1.length = s2.length := by
  rw [ws_strcaseeq_iff] at h
  have := congrArg List.length h
  simpa using this

/-! ### Domain matching (claim C8 and helpers) -/

theorem is_domain_match_iff (host cd : CStr) :
    is_domain_match host cd = true ↔ domainMatchSpec host cd := by
  have hsplit : is_domain_match host cd = true ↔
      host.map c_tolower = cd.map c_tolower ∨
      (host.length > cd.length ∧
       host[host.length - cd.length - 1]? = some '.' ∧
       (host.drop (host.length - cd.length)).map c_tolower = cd.map c_tolower) := by
    simp [is_domain_match, ws_strcaseeq, Bool.or_eq_true, Bool.and_eq_true,
      decide_eq_true_iff, and_assoc]
  rw [hsplit]
  unfold domainMatchSpec
  constructor
  · rintro (h | ⟨hlen, hdot, hsuf⟩)
    · exact Or.inl h
    · refine Or.inr ⟨(host.take (host.length - cd.length - 1)).map c_tolower, ?_⟩
      have hidx : host.length - cd.length - 1 < host.length := by omega
      have hdrop : host.drop (host.length - cd.length - 1) =
          host[host.length - cd.length - 1] :: host.drop (host.length - cd.length) := by
        have := List.drop_eq_getElem_cons hidx
        rwa [show host.length - cd.length - 1 + 1 = host.length - cd.length by omega] at this
      have hdotel : host[host.length - cd.length - 1] = '.' := by
        have := List.getElem?_eq_getElem hidx
        rw [this] at hdot
        exact Option.some.inj hdot
      calc host.map c_tolower
          = (host.take (host.length - cd.length - 1) ++
             host.drop (host.length - cd.length - 1)).map c_tolower := by
            rw [List.take_append_drop]
        _ = (host.take (host.length - cd.length - 1)).map c_tolower ++
            ('.' :: host.drop (host.length - cd.length)).map c_tolower := by
            rw [List.map_append, hdrop, hdotel]
        _ = (host.take (host.length - cd.length - 1)).map c_tolower ++
            '.' :: cd.map c_tolower := by
            rw [List.map_cons, hsuf, show c_tolower '.' = '.' from by decide]
  · rintro (h | ⟨pre, hp⟩)
    · exact Or.inl h
    · right
      have hlenmap : host.length = pre.length + 1 + cd.length := by
        have := congrArg List.length hp
        simpa [Nat.add_comm, Nat.add_assoc, Nat.add_left_comm] using this
      have hgt : host.length > cd.length := by omega
      have hk1 : host.length - cd.length - 1 = pre.length := by omega
      have hk : host.length - cd.length = pre.length + 1 := by omega
      refine ⟨hgt, ?_, ?_⟩
      · have hmapget : (host.map c_tolower)[pre.length]? = some '.' := by
          rw [hp]
          rw [List.getElem?_append_right (by omega)]
          simp
        rw [List.getElem?_map] at hmapget
        rw [hk1]
        cases hhost : host[pre.length]? with
        | none => rw [hhost] at hmapget; simp at hmapget
        | some x =>
          rw [hhost] at hmapget
          simp only [Option.map_some'] at hmapget
          have := (c_tolower_dot_iff x).mp (Option.some.inj hmapget)
          rw [this]
      · rw [hk, List.map_drop, hp]
        have : pre ++ '.' :: cd.map c_tolower = (pre ++ ['.']) ++ cd.map c_tolower := by
          simp
        rw [this, show pre.length + 1 = (pre ++ ['.']).length by simp]
        exact List.drop_left _ _

theorem is_domain_match_congr_hyp (host d1 d2 : CStr)
    (h : ws_strcaseeq d1 d2 = true) :
    is_domain_match host d1 = is_domain_match host d2 := by
  have hm : d1.map c_tolower = d2.map c_tolower := (ws_strcaseeq_iff _ _).mp h
  have hl : d1.length = d2.length := ws_strcaseeq_length _ _ h
  simp only [is_domain_match, ws_strcaseeq, hm, hl]

/-- C8: a request host matches a stored cookie domain iff it equals the
domain case-insensitively or ends with `.` followed by the domain
case-insensitively; `a.b.example.com` matches cookie-domain `example.com`
while `example.com.attacker` does not. -/
theorem c8_domain_match (host cd : CStr) :
    (is_domain_match host cd = true ↔ domainMatchSpec host cd) ∧
    is_domain_match (str "a.b.example.com") (str "example.com") = true ∧
    is_domain_match (str "example.com.attacker") (str "example.com") = false :=
  ⟨is_domain_match_iff host cd, by decide, by decide⟩

/-- Witness for C8 at a concrete input: the code's matcher accepts
`www.example.com` against `example.com`, and the characterisation turns that
into the spec-side suffix decomposition. -/
theorem c8_domain_match_witness :
    ∃ pre, (str "www.example.com").map c_tolower =
      pre ++ '.' :: (str "example.com").map c_tolower := by
  have h := (c8_domain_match (str "www.example.com") (str "example.com")).1.mp (by decide)
  rcases h with h | h
  · exact absurd (congrArg List.length h) (by decide)
  · exact h

/-! ### Cookie storage and assembly helper lemmas -/

theorem upsertCookie_mem (l : List ws_cookie) (c : ws_cookie) : c ∈ upsertCookie l c := by
  induction l with
  | nil => simp [upsertCookie]
  | cons e rest ih =>
    unfold upsertCookie
    split
    · simp
    · simp [ih]

theorem updatePathList_mem (pl : List ws_path_map_item) (c : ws_cookie) :
    ∃ p ∈ updatePathList pl c, p.path_key = c.path ∧ c ∈ p.cookies := by
  induction pl with
  | nil =>
    refine ⟨⟨c.path, upsertCookie [] c⟩, ?_, rfl, upsertCookie_mem _ _⟩
    simp [updatePathList]
  | cons p rest ih =>
    unfold updatePathList
    split
    case isTrue h =>
      exact ⟨⟨p.path_key, upsertCookie p.cookies c⟩, by simp, h, upsertCookie_mem _ _⟩
    case isFalse h =>
      obtain ⟨q, hq, hk, hc⟩ := ih
      exact ⟨q, by simp [hq], hk, hc⟩

theorem updateDomainList_mem (L : List ws_domain_cookies) (c : ws_cookie) :
    ∃ d ∈ updateDomainList L c, ws_strcaseeq d.domain c.domain = true ∧
      ∃ p ∈ d.path_cookies, p.path_key = c.path ∧ c ∈ p.cookies := by
  induction L with
  | nil =>
    refine ⟨⟨c.domain, updatePathList [] c⟩, by simp [updateDomainList], ?_, ?_⟩
    · simp [ws_strcaseeq]
    · exact updatePathList_mem [] c
  | cons e rest ih =>
    unfold updateDomainList
    split
    case isTrue h =>
      refine ⟨⟨e.domain, updatePathList e.path_cookies c⟩, by simp, h, ?_⟩
      exact updatePathList_mem e.path_cookies c
    case isFalse h =>
      obtain ⟨d, hd, he, hrest⟩ := ih
      exact ⟨d, by simp [hd], he, hrest⟩

theorem scanCookieList_emit_mem (now : Int) (https : Bool) (l : List ws_cookie)
    (c : ws_cookie) (hc : c ∈ (scanCookieList now https l).1) :
    c ∈ l ∧ cookieExpired now c = false ∧ (c.secure && !https) = false := by
  induction l with
  | nil => simp [scanCookieList] at hc
  | cons e rest ih =>
    unfold scanCookieList at hc
    by_cases hexp : cookieExpired now e
    · rw [if_pos hexp] at hc
      obtain ⟨h1, h2, h3⟩ := ih hc
      exact ⟨List.mem_cons_of_mem _ h1, h2, h3⟩
    · rw [if_neg hexp] at hc
      by_cases hsec : (e.secure && !https) = true
      · rw [if_pos hsec] at hc
        obtain ⟨h1, h2, h3⟩ := ih hc
        exact ⟨List.mem_cons_of_mem _ h1, h2, h3⟩
      · rw [if_neg hsec] at hc
        rcases List.mem_cons.mp hc with h | h
        · subst h
          exact ⟨List.mem_cons_self _ _, Bool.not_eq_true _ ▸ (by simpa using hexp),
            by simpa using hsec⟩
        · obtain ⟨h1, h2, h3⟩ := ih h
          exact ⟨List.mem_cons_of_mem _ h1, h2, h3⟩

theorem scanCookieList_emit_of (now : Int) (https : Bool) (l : List ws_cookie)
    (c : ws_cookie) (hc : c ∈ l) (hexp : cookieExpired now c = false)
    (hsec : (c.secure && !https) = false) :
    c ∈ (scanCookieList now https l).1 := by
  induction l with
  | nil => simp at hc
  | cons e rest ih =>
    unfold scanCookieList
    rcases List.mem_cons.mp hc with h | h
    · subst h
      rw [if_neg (by simp [hexp]), if_neg (by simp [hsec])]
      simp
    · by_cases he : cookieExpired now e
      · rw [if_pos he]
        exact ih h
      · rw [if_neg he]
        by_cases hs : (e.secure && !https) = true
        · rw [if_pos hs]
          exact ih h
        · rw [if_neg hs]
          simp [ih h]

theorem scanCookieList_keep_mem (now : Int) (https : Bool) (l : List ws_cookie)
    (c : ws_cookie) (hc : c ∈ l) (hexp : cookieExpired now c = false) :
    c ∈ (scanCookieList now https l).2 := by
  induction l with
  | nil => simp at hc
  | cons e rest ih =>
    unfold scanCookieList
    rcases List.mem_cons.mp hc with h | h
    · subst h
      rw [if_neg (by simp [hexp])]
      split <;> simp
    · by_cases he : cookieExpired now e
      · rw [if_pos he]
        exact ih h
      · rw [if_neg he]
        split <;> simp [ih h]

theorem scanCookieList_keep_not_expired (now : Int) (https : Bool) (l : List ws_cookie)
    (c : ws_cookie) (hc : c ∈ (scanCookieList now https l).2) :
    cookieExpired now c = false := by
  induction l with
  | nil => simp [scanCookieList] at hc
  | cons e rest ih =>
    unfold scanCookieList at hc
    by_cases he : cookieExpired now e
    · rw [if_pos he] at hc
      exact ih hc
    · rw [if_neg he] at hc
      by_cases hs : (e.secure && !https) = true
      · rw [if_pos hs] at hc
        rcases List.mem_cons.mp hc with h | h
        · subst h; simpa using he
        · exact ih h
      · rw [if_neg hs] at hc
        rcases List.mem_cons.mp hc with h | h
        · subst h; simpa using he
        · exact ih h

theorem processPaths_emit_of (request_path : CStr) (now : Int) (https : Bool)
    (pl : List ws_path_map_item) (p : ws_path_map_item) (c : ws_cookie)
    (hp : p ∈ pl) (hm : is_path_match request_path p.path_key = true)
    (hc : c ∈ (scanCookieList now https p.cookies).1) :
    c ∈ (processPaths request_path now https pl).1 := by
  induction pl with
  | nil => simp at hp
  | cons q rest ih =>
    unfold processPaths
    rcases List.mem_cons.mp hp with h | h
    · subst h
      rw [if_pos hm]
      exact List.mem_append_left _ hc
    · split
      · exact List.mem_append_right _ (ih h)
      · exact ih h

theorem processDomains_emit_of (request_host request_path : CStr) (now : Int) (https : Bool)
    (L : List ws_domain_cookies) (d : ws_domain_cookies) (c : ws_cookie)
    (hd : d ∈ L) (hm : is_domain_match request_host d.domain = true)
    (hc : c ∈ (processPaths request_path now https d.path_cookies).1) :
    c ∈ (processDomains request_host request_path now https L).1 := by
  induction L with
  | nil => simp at hd
  | cons e rest ih =>
    unfold processDomains
    rcases List.mem_cons.mp hd with h | h
    · subst h
      rw [if_pos hm]
      exact List.mem_append_left _ hc
    · split
      · exact List.mem_append_right _ (ih h)
      · exact ih h

theorem processPaths_emit_mem (request_path : CStr) (now : Int) (https : Bool)
    (pl : List ws_path_map_item) (c : ws_cookie)
    (hc : c ∈ (processPaths request_path now https pl).1) :
    ∃ p ∈ pl, is_path_match request_path p.path_key = true ∧
      c ∈ (scanCookieList now https p.cookies).1 := by
  induction pl with
  | nil => simp [processPaths] at hc
  | cons q rest ih =>
    unfold processPaths at hc
    by_cases hm : is_path_match request_path q.path_key = true
    · rw [if_pos hm] at hc
      rcases List.mem_append.mp hc with h | h
      · exact ⟨q, List.mem_cons_self _ _, hm, h⟩
      · obtain ⟨p, hp, h1, h2⟩ := ih h
        exact ⟨p, List.mem_cons_of_mem _ hp, h1, h2⟩
    · rw [if_neg hm] at hc
      obtain ⟨p, hp, h1, h2⟩ := ih hc
      exact ⟨p, List.mem_cons_of_mem _ hp, h1, h2⟩

theorem processDomains_emit_mem (request_host request_path : CStr) (now : Int) (https : Bool)
    (L : List ws_domain_cookies) (c : ws_cookie)
    (hc : c ∈ (processDomains request_host request_path now https L).1) :
    ∃ d ∈ L, is_domain_match request_host d.domain = true ∧
      ∃ p ∈ d.path_cookies, is_path_match request_path p.path_key = true ∧
        c ∈ (scanCookieList now https p.cookies).1 := by
  induction L with
  | nil => simp [processDomains] at hc
  | cons e rest ih =>
    unfold processDomains at hc
    by_cases hm : is_domain_match request_host e.domain = true
    · rw [if_pos hm] at hc
      rcases List.mem_append.mp hc with h | h
      · exact ⟨e, List.mem_cons_self _ _, hm, processPaths_emit_mem _ _ _ _ _ h⟩
      · obtain ⟨d, hd, h1, h2⟩ := ih h
        exact ⟨d, List.mem_cons_of_mem _ hd, h1, h2⟩
    · rw [if_neg hm] at hc
      obtain ⟨d, hd, h1, h2⟩ := ih hc
      exact ⟨d, List.mem_cons_of_mem _ hd, h1, h2⟩

theorem processPaths_keep (request_path : CStr) (now : Int) (https : Bool)
    (pl : List ws_path_map_item) (p : ws_path_map_item) (c : ws_cookie)
    (hp : p ∈ pl) (hc : c ∈ p.cookies) (hexp : cookieExpired now c = false) :
    ∃ p' ∈ (processPaths request_path now https pl).2,
      p'.path_key = p.path_key ∧ c ∈ p'.cookies := by
  induction pl with
  | nil => simp at hp
  | cons q rest ih =>
    unfold processPaths
    rcases List.mem_cons.mp hp with h | h
    · subst h
      split
      · exact ⟨⟨p.path_key, (scanCookieList now https p.cookies).2⟩, by simp, rfl,
          scanCookieList_keep_mem now https _ c hc hexp⟩
      · exact ⟨p, by simp, rfl, hc⟩
    · obtain ⟨p', hp', h1, h2⟩ := ih h
      split
      · exact ⟨p', by simp [hp'], h1, h2⟩
      · exact ⟨p', by simp [hp'], h1, h2⟩

theorem processDomains_keep (request_host request_path : CStr) (now : Int) (https : Bool)
    (L : List ws_domain_cookies) (d : ws_domain_cookies) (p : ws_path_map_item) (c : ws_cookie)
    (hd : d ∈ L) (hp : p ∈ d.path_cookies) (hc : c ∈ p.cookies)
    (hexp : cookieExpired now c = false) :
    ∃ d' ∈ (processDomains request_host request_path now https L).2,
      d'.domain = d.domain ∧
      ∃ p' ∈ d'.path_cookies, p'.path_key = p.path_key ∧ c ∈ p'.cookies := by
  induction L with
  | nil => simp at hd
  | cons e rest ih =>
    unfold processDomains
    rcases List.mem_cons.mp hd with h | h
    · subst h
      split
      · refine ⟨⟨d.domain, (processPaths request_path now https d.path_cookies).2⟩,
          by simp, rfl, ?_⟩
        exact processPaths_keep request_path now https _ p c hp hc hexp
      · exact ⟨d, by simp, rfl, p, hp, rfl, hc⟩
    · obtain ⟨d', hd', h1, h2⟩ := ih h
      split
      · exact ⟨d', by simp [hd'], h1, h2⟩
      · exact ⟨d', by simp [hd'], h1, h2⟩

theorem processPaths_post (request_path : CStr) (now : Int) (https : Bool)
    (pl : List ws_path_map_item) (p' : ws_path_map_item) (c : ws_cookie)
    (hp : p' ∈ (processPaths request_path now https pl).2)
    (hm : is_path_match request_path p'.path_key = true) (hc : c ∈ p'.cookies) :
    cookieExpired now c = false := by
  induction pl with
  | nil => simp [processPaths] at hp
  | cons q rest ih =>
    unfold processPaths at hp
    by_cases hq : is_path_match request_path q.path_key = true
    · rw [if_pos hq] at hp
      rcases List.mem_cons.mp hp with h | h
      · subst h
        exact scanCookieList_keep_not_expired now https _ c hc
      · exact ih h
    · rw [if_neg hq] at hp
      rcases List.mem_cons.mp hp with h | h
      · subst h
        exact absurd hm hq
      · exact ih h

theorem processDomains_post (request_host request_path : CStr) (now : Int) (https : Bool)
    (L : List ws_domain_cookies) (d' : ws_domain_cookies) (p' : ws_path_map_item) (c : ws_cookie)
    (hd : d' ∈ (processDomains request_host request_path now https L).2)
    (hdm : is_domain_match request_host d'.domain = true)
    (hp : p' ∈ d'.path_cookies)
    (hpm : is_path_match request_path p'.path_key = true) (hc : c ∈ p'.cookies) :
    cookieExpired now c = false := by
  induction L with
  | nil => simp [processDomains] at hd
  | cons e rest ih =>
    unfold processDomains at hd
    by_cases he : is_domain_match request_host e.domain = true
    · rw [if_pos he] at hd
      rcases List.mem_cons.mp hd with h | h
      · subst h
        exact processPaths_post request_path now https _ p' c hp hpm hc
      · exact ih h
    · rw [if_neg he] at hd
      rcases List.mem_cons.mp hd with h | h
      · subst h
        exact absurd hdm he
      · exact ih h

theorem buildCookieString_extends (l : List ws_cookie) (acc : CStr) :
    ∃ t, buildCookieString l acc = acc ++ t := by
  induction l generalizing acc with
  | nil => exact ⟨[], by simp [buildCookieString]⟩
  | cons c rest ih =>
    unfold buildCookieString
    split
    · obtain ⟨t, ht⟩ := ih (acc ++ str "; " ++ cookiePair c)
      exact ⟨str "; " ++ cookiePair c ++ t, by simpa [List.append_assoc] using ht⟩
    · obtain ⟨t, ht⟩ := ih (acc ++ cookiePair c)
      exact ⟨cookiePair c ++ t, by simp [ht]⟩

theorem buildCookieString_mem_decomp (l : List ws_cookie) (c : ws_cookie) (acc : CStr)
    (hc : c ∈ l) :
    ∃ pre post, buildCookieString l acc = pre ++ cookiePair c ++ post := by
  induction l generalizing acc with
  | nil => simp at hc
  | cons e rest ih =>
    rcases List.mem_cons.mp hc with h | h
    · subst h
      unfold buildCookieString
      split
      · obtain ⟨t, ht⟩ := buildCookieString_extends rest (acc ++ str "; " ++ cookiePair c)
        exact ⟨acc ++ str "; ", t, by simpa [List.append_assoc] using ht⟩
      · obtain ⟨t, ht⟩ := buildCookieString_extends rest (acc ++ cookiePair c)
        exact ⟨acc, t, by simp [ht]⟩
    · unfold buildCookieString
      split
      · exact ih (acc ++ str "; " ++ cookiePair e) h
      · exact ih (acc ++ cookiePair e) h

/-! ### Claim C5 — Secure enforcement -/

/-- C5: no `Secure` cookie is ever emitted over non-HTTPS.  (1) Every cookie
the assembly emits when `is_https = false` has `secure = false`; (2) a parsed
cookie carrying the `Secure` flag that arrives over plain HTTP is rejected at
storage time, leaving the jar unchanged; (3) a stored `Secure` cookie that is
not expired survives a non-HTTPS assembly in its `(domain, path)` bucket (it
is skipped, not removed). -/
theorem c5_secure_enforcement :
    (∀ (jar : ws_cookie_jar) (host path : CStr) (now : Int) (c : ws_cookie),
        c ∈ (processDomains host path now false jar.domain_map).1 → c.secure = false) ∧
    (∀ (pd : CStr → Int) (jar : ws_cookie_jar) (host path hv : CStr) (now : Int)
        (c : ws_cookie),
        parse_set_cookie_string pd now hv host path = some c → c.secure = true →
        acceptSetCookie pd jar host path false hv now = jar) ∧
    (∀ (jar : ws_cookie_jar) (host path : CStr) (now : Int) (dk pk : CStr) (c : ws_cookie),
        jarHasCookie jar dk pk c → c.secure = true → cookieExpired now c = false →
        jarHasCookie (ws_cookie_jar_get_cookie_header_string jar host path false now).2
          dk pk c) := by
  refine ⟨?_, ?_, ?_⟩
  · intro jar host path now c hc
    obtain ⟨d, _, _, p, _, _, hscan⟩ := processDomains_emit_mem host path now false _ c hc
    have := (scanCookieList_emit_mem now false _ c hscan).2.2
    simpa using this
  · intro pd jar host path hv now c hparse hsec
    unfold acceptSetCookie
    simp only [hparse]
    rcases Bool.eq_false_or_eq_true (storeDomainOk host c.domain) with hdom | hdom
    · rw [if_neg (show ¬ (!(storeDomainOk host c.domain)) = true by simp [hdom]),
        if_pos (show (c.secure && !false) = true by simp [hsec])]
    · rw [if_pos (show (!(storeDomainOk host c.domain)) = true by simp [hdom])]
  · intro jar host path now dk pk c hjar hsec hexp
    obtain ⟨d, hd, hdk, p, hp, hpk, hc⟩ := hjar
    obtain ⟨d', hd', hdom', p', hp', hpk', hc'⟩ :=
      processDomains_keep host path now false jar.domain_map d p c hd hp hc hexp
    exact ⟨d', hd', hdom'.trans hdk, p', hp', hpk'.trans hpk, hc'⟩

/-- Witness for C5: the concrete scenario of the spec — `a=1; Secure`
accepted at `example.com` over HTTPS is skipped (conjunct 1 and 3
vacuously/concretely), and the same header arriving over plain HTTP leaves
the jar empty (conjunct 2 at a concrete input). -/
theorem c5_secure_enforcement_witness :
    parse_set_cookie_string pd0 1000 (str "a=1; Secure") (str "example.com") (str "/") =
      some { name := str "a", value := str "1", domain := str "example.com"
           , path := str "/", expires := 0, secure := true, httponly := false } ∧
    acceptSetCookie pd0 ws_cookie_jar_new (str "example.com") (str "/") false
      (str "a=1; Secure") 1000 = ws_cookie_jar_new :=
  ⟨by decide,
    c5_secure_enforcement.2.1 pd0 ws_cookie_jar_new (str "example.com") (str "/")
      (str "a=1; Secure") 1000
      { name := str "a", value := str "1", domain := str "example.com"
      , path := str "/", expires := 0, secure := true, httponly := false }
      (by decide) rfl⟩

/-! ### Claim C6 — cookie expiry purge (amended) -/

/-- C6 counterexample: the claim as stated is false — an expired cookie whose
bucket does not match the request (here domain `other.com` against request
host `example.com`) is *not* removed by assembly: the jar comes back
unchanged, still holding the expired cookie. -/
theorem c6_expiry_counterexample :
    (0 < expiredOtherCookie.expires ∧ expiredOtherCookie.expires < 1000) ∧
    (ws_cookie_jar_get_cookie_header_string c6Jar (str "example.com") (str "/") true 1000).2
      = c6Jar ∧
    jarHasCookie
      (ws_cookie_jar_get_cookie_header_string c6Jar (str "example.com") (str "/") true 1000).2
      (str "other.com") (str "/") expiredOtherCookie := by
  refine ⟨by decide, by decide, ?_⟩
  refine ⟨⟨str "other.com", [⟨str "/", [expiredOtherCookie]⟩]⟩, by decide, rfl,
    ⟨str "/", [expiredOtherCookie]⟩, by decide, rfl, by decide⟩

/-- C6 amended: assembly never includes an expired cookie, and it physically
removes an expired cookie from its `(domain, path)` bucket whenever that
bucket is examined — i.e. whenever the cookie's domain matches the request
host and its path matches the request path.  (Expired cookies in buckets the
assembly does not visit stay in the jar.) -/
theorem c6_expiry_amended :
    (∀ (jar : ws_cookie_jar) (host path : CStr) (https : Bool) (now : Int) (c : ws_cookie),
        c ∈ (processDomains host path now https jar.domain_map).1 →
        cookieExpired now c = false) ∧
    (∀ (jar : ws_cookie_jar) (host path : CStr) (https : Bool) (now : Int)
        (d' : ws_domain_cookies) (p' : ws_path_map_item) (c : ws_cookie),
        d' ∈ (ws_cookie_jar_get_cookie_header_string jar host path https now).2.domain_map →
        p' ∈ d'.path_cookies → c ∈ p'.cookies →
        is_domain_match host d'.domain = true →
        is_path_match path p'.path_key = true →
        cookieExpired now c = false) := by
  constructor
  · intro jar host path https now c hc
    obtain ⟨d, _, _, p, _, _, hscan⟩ := processDomains_emit_mem host path now https _ c hc
    exact (scanCookieList_emit_mem now https _ c hscan).2.1
  · intro jar host path https now d' p' c hd hp hc hdm hpm
    exact processDomains_post host path now https jar.domain_map d' p' c hd hdm hp hpm hc

/-- Witness for C6 (amended): an expired cookie in a matching bucket is gone
after assembly — concretely, `x=9` with `expires = 5` under `other.com` is
removed by an assembly for `other.com` at time 1000 (the updated jar's bucket
is empty), and no expired cookie could remain there by the amended theorem. -/
theorem c6_expiry_amended_witness :
    (ws_cookie_jar_get_cookie_header_string c6Jar (str "other.com") (str "/") true 1000).2
      = ⟨[⟨str "other.com", [⟨str "/", []⟩]⟩]⟩ ∧
    cookieExpired 1000 expiredOtherCookie = true ∧
    (expiredOtherCookie ∈
        (processDomains (str "other.com") (str "/") 1000 true c6Jar.domain_map).1 → False) :=
  ⟨by decide, by decide, fun h =>
    absurd (c6_expiry_amended.1 c6Jar (str "other.com") (str "/") true 1000
      expiredOtherCookie h) (by decide)⟩

/-! ### Claim C7 — Max-Age=0 -/

/-- C7: the code does *not* treat `Max-Age=0` as immediately expired.  At
time 1000 the jar accepts `a=1; Max-Age=0` with `expires = now + 0 = 1000`;
an assembly at the same second finds `expires < now` false, so the header
comes back as `a=1` (not the no-cookie sentinel) and the `(domain, path)`
bucket still holds the cookie.  This contradicts the parser's own comment
("Max-Age=0 (or negative) means delete cookie immediately") and the spec's
scenario 3; the `max_age >= 0` guard at ws_cookie.c:306 puts `0` in the
keep branch. -/
theorem c7_max_age_zero_not_expired :
    acceptSetCookie pd0 ws_cookie_jar_new (str "example.com") (str "/") true
        (str "a=1; Max-Age=0") 1000 =
      ⟨[⟨str "example.com", [⟨str "/", [maxAgeZeroCookie]⟩]⟩]⟩ ∧
    (ws_cookie_jar_get_cookie_header_string
        ⟨[⟨str "example.com", [⟨str "/", [maxAgeZeroCookie]⟩]⟩]⟩
        (str "example.com") (str "/") true 1000).1 = some (str "a=1") ∧
    (ws_cookie_jar_get_cookie_header_string
        ⟨[⟨str "example.com", [⟨str "/", [maxAgeZeroCookie]⟩]⟩]⟩
        (str "example.com") (str "/") true 1000).2 =
      ⟨[⟨str "example.com", [⟨str "/", [maxAgeZeroCookie]⟩]⟩]⟩ := by
  refine ⟨by decide, by decide, by decide⟩

/-! ### Claim C3 — cookie round-trip (amended) -/

/-- C3 counterexample: the claim quantifies over *every* accepted Set-Cookie
and requires no expiry condition, but an accepted `a=1; Max-Age=5` (stored at
time 1000 with `expires = 1005`) yields *no* Cookie header at all for the
very host/path/scheme it was stored under when assembly happens at time 2000
— the substring `a=1` cannot appear in a header that is the no-cookie
sentinel. -/
theorem c3_round_trip_counterexample :
    acceptSetCookie pd0 ws_cookie_jar_new (str "example.com") (str "/") true
        (str "a=1; Max-Age=5") 1000 =
      ⟨[⟨str "example.com", [⟨str "/",
        [{ name := str "a", value := str "1", domain := str "example.com"
         , path := str "/", expires := 1005, secure := false, httponly := false }]⟩]⟩]⟩ ∧
    is_domain_match (str "example.com") (str "example.com") = true ∧
    is_path_match (str "/") (str "/") = true ∧
    (ws_cookie_jar_get_cookie_header_string
        ⟨[⟨str "example.com", [⟨str "/",
          [{ name := str "a", value := str "1", domain := str "example.com"
           , path := str "/", expires := 1005, secure := false, httponly := false }]⟩]⟩]⟩
        (str "example.com") (str "/") true 2000).1 = none := by
  refine ⟨by decide, by decide, by decide, by decide⟩

/-- C3 amended: for every `Set-Cookie` value accepted and stored by the jar,
a subsequent assembly for a host matching the stored domain, a path matching
the stored path, a scheme satisfying the `Secure` constraint, **and at a time
at which the cookie has not expired** (`expires = 0` or `expires ≥ now`),
returns a header string containing `name=value` as a substring. -/
theorem c3_round_trip_amended
    (pd : CStr → Int) (jar : ws_cookie_jar) (host path hv : CStr) (https : Bool)
    (now : Int) (host' path' : CStr) (https' : Bool) (now' : Int) (c : ws_cookie)
    (hparse : parse_set_cookie_string pd now hv host path = some c)
    (hdom : storeDomainOk host c.domain = true)
    (hstore : (c.secure && !https) = false)
    (hdm : is_domain_match host' c.domain = true)
    (hpm : is_path_match path' c.path = true)
    (hse : (c.secure && !https') = false)
    (hex : cookieExpired now' c = false) :
    ∃ s, (ws_cookie_jar_get_cookie_header_string
        (acceptSetCookie pd jar host path https hv now) host' path' https' now').1 = some s ∧
      ∃ pre post, s = pre ++ cookiePair c ++ post := by
  have hjar : acceptSetCookie pd jar host path https hv now =
      ⟨updateDomainList jar.domain_map c⟩ := by
    unfold acceptSetCookie
    simp only [hparse]
    rw [if_neg (show ¬ (!(storeDomainOk host c.domain)) = true by simp [hdom]),
      if_neg (show ¬ (c.secure && !https) = true by simp [hstore])]
  rw [hjar]
  obtain ⟨d, hd, hdeq, p, hp, hpeq, hcmem⟩ := updateDomainList_mem jar.domain_map c
  have hdm' : is_domain_match host' d.domain = true := by
    rw [is_domain_match_congr_hyp host' d.domain c.domain hdeq]
    exact hdm
  have hscan : c ∈ (scanCookieList now' https' p.cookies).1 :=
    scanCookieList_emit_of now' https' p.cookies c hcmem hex hse
  have hpp : c ∈ (processPaths path' now' https' d.path_cookies).1 :=
    processPaths_emit_of path' now' https' d.path_cookies p c hp
      (by rw [hpeq]; exact hpm) hscan
  have hpd : c ∈ (processDomains host' path' now' https'
      (updateDomainList jar.domain_map c)).1 :=
    processDomains_emit_of host' path' now' https' _ d c hd hdm' hpp
  obtain ⟨pre, post, hbuild⟩ := buildCookieString_mem_decomp _ c [] hpd
  have hlen : ¬ (buildCookieString (processDomains host' path' now' https'
      (updateDomainList jar.domain_map c)).1 []).length = 0 := by
    rw [hbuild]
    simp [cookiePair]
  refine ⟨buildCookieString (processDomains host' path' now' https'
      (updateDomainList jar.domain_map c)).1 [], ?_, pre, post, hbuild⟩
  unfold ws_cookie_jar_get_cookie_header_string
  simp only [if_neg hlen]

/-- Witness for C3 (amended), which is also the spec's concrete scenario 1:
accept `a=1; Domain=example.com; Path=/` at `example.com` over HTTPS, then
assemble for `https://www.example.com/x` — the header exists and contains
`a=1`. -/
theorem c3_round_trip_amended_witness :
    ∃ s, (ws_cookie_jar_get_cookie_header_string
        (acceptSetCookie pd0 ws_cookie_jar_new (str "example.com") (str "/") true
          (str "a=1; Domain=example.com; Path=/") 1000)
        (str "www.example.com") (str "/x") true 1000).1 = some s ∧
      ∃ pre post, s = pre ++ cookiePair roundTripCookie ++ post :=
  c3_round_trip_amended pd0 ws_cookie_jar_new (str "example.com") (str "/")
    (str "a=1; Domain=example.com; Path=/") true 1000
    (str "www.example.com") (str "/x") true 1000 roundTripCookie
    (by decide) (by decide) (by decide) (by decide) (by decide) (by decide) (by decide)

/-! ### Claim C9 — URL resolution (amended) -/

/-- C9 counterexample: for a relative URL beginning with `//` the code
returns it verbatim — it does **not** fill in the base scheme.  Resolving
`//h2/a` against `http://h/p/q` yields `//h2/a`, not `http://h2/a`. -/
theorem c9_resolve_counterexample :
    ws_url_resolve (str "http://h/p/q") (str "//h2/a") = str "//h2/a" ∧
    str "//h2/a" ≠ str "http://h2/a" := by
  refine ⟨by decide, by decide⟩

/-- C9 amended: `ws_url_resolve` returns the relative URL **verbatim** (no
scheme fill) when it contains `"://"` or begins with `"//"`; when it begins
with `/` the result is the base's scheme, host and non-default port with the
path replaced entirely by the relative URL; otherwise the relative URL is
joined with `/` onto `dirname` of the base path.  Resolving `/next` against
`http://h/p/q` yields `http://h/next`. -/
theorem c9_url_resolve_branches :
    (∀ base rel : CStr,
        ((findSubIdx (str "://") rel).isSome ∨ rel.take 2 = str "//") →
        ws_url_resolve base rel = rel) ∧
    (∀ base rel : CStr,
        ¬ ((findSubIdx (str "://") rel).isSome ∨ rel.take 2 = str "//") →
        rel.headD ' ' = '/' →
        ws_url_resolve base rel =
          (parse_url_parts base).protocol ++ str "://" ++ (parse_url_parts base).hostname ++
            resolvePortString (parse_url_parts base) ++ rel) ∧
    (∀ base rel : CStr,
        ¬ ((findSubIdx (str "://") rel).isSome ∨ rel.take 2 = str "//") →
        ¬ rel.headD ' ' = '/' →
        ws_url_resolve base rel =
          (parse_url_parts base).protocol ++ str "://" ++ (parse_url_parts base).hostname ++
            resolvePortString (parse_url_parts base) ++
            (c_dirname (parse_url_parts base).path ++ '/' :: rel)) ∧
    ws_url_resolve (str "http://h/p/q") (str "/next") = str "http://h/next" := by
  refine ⟨?_, ?_, ?_, by decide⟩
  · intro base rel h
    unfold ws_url_resolve
    exact if_pos h
  · intro base rel hna hroot
    unfold ws_url_resolve
    rw [if_neg hna]
    simp only [if_pos hroot]
  · intro base rel hna hroot
    unfold ws_url_resolve
    rw [if_neg hna]
    simp only [if_neg hroot]

/-- Witness for C9 (amended): the root-relative branch at a concrete base
with a non-default port. -/
theorem c9_url_resolve_branches_witness :
    ws_url_resolve (str "http://h:8080/p/q") (str "/x") =
      (parse_url_parts (str "http://h:8080/p/q")).protocol ++ str "://" ++
        (parse_url_parts (str "http://h:8080/p/q")).hostname ++
        resolvePortString (parse_url_parts (str "http://h:8080/p/q")) ++ str "/x" ∧
    ws_url_resolve (str "http://h:8080/p/q") (str "/x") = str "http://h:8080/x" :=
  ⟨c9_url_resolve_branches.2.1 (str "http://h:8080/p/q") (str "/x")
    (by decide) (by decide), by decide⟩

/-! ### Crawler helper lemmas (claims C1 and C2) -/

theorem dispatch_eq_nil (submitOk : CStr → Bool) (s : ws_crawler) (hq : s.url_queue = []) :
    s_crawler_dispatch_requests submitOk s = dispatchFinish s := by
  rw [s_crawler_dispatch_requests, hq]

theorem dispatch_eq_nocap (submitOk : CStr → Bool) (s : ws_crawler) (url : CStr)
    (rest : List CStr) (hq : s.url_queue = url :: rest)
    (hge : ¬ s.active_requests < s.max_concurrent_requests) :
    s_crawler_dispatch_requests submitOk s = dispatchFinish s := by
  rw [s_crawler_dispatch_requests, hq]
  simp only [if_neg hge]

theorem dispatch_eq_visited (submitOk : CStr → Bool) (s : ws_crawler) (url : CStr)
    (rest : List CStr) (hq : s.url_queue = url :: rest)
    (hlt : s.active_requests < s.max_concurrent_requests)
    (hvis : ws_crawler_is_visited { s with url_queue := rest } url = true) :
    s_crawler_dispatch_requests submitOk s =
      s_crawler_dispatch_requests submitOk { s with url_queue := rest } := by
  rw [s_crawler_dispatch_requests, hq]
  simp only [if_pos hlt, if_pos hvis]

theorem dispatch_eq_submit (submitOk : CStr → Bool) (s : ws_crawler) (url : CStr)
    (rest : List CStr) (hq : s.url_queue = url :: rest)
    (hlt : s.active_requests < s.max_concurrent_requests)
    (hvis : ¬ ws_crawler_is_visited { s with url_queue := rest } url = true)
    (hok : submitOk url = true) :
    s_crawler_dispatch_requests submitOk s =
      s_crawler_dispatch_requests submitOk
        { s with url_queue := rest
               , visited_urls := s.visited_urls ++ [url]
               , submitted := s.submitted ++ [url]
               , inflight := s.inflight ++ [url]
               , active_requests := s.active_requests + 1 } := by
  rw [s_crawler_dispatch_requests, hq]
  simp only [if_pos hlt, if_neg hvis, if_pos hok]

theorem dispatch_eq_nosubmit (submitOk : CStr → Bool) (s : ws_crawler) (url : CStr)
    (rest : List CStr) (hq : s.url_queue = url :: rest)
    (hlt : s.active_requests < s.max_concurrent_requests)
    (hvis : ¬ ws_crawler_is_visited { s with url_queue := rest } url = true)
    (hok : ¬ submitOk url = true) :
    s_crawler_dispatch_requests submitOk s =
      s_crawler_dispatch_requests submitOk
        { s with url_queue := rest, visited_urls := s.visited_urls ++ [url] } := by
  rw [s_crawler_dispatch_requests, hq]
  simp only [if_pos hlt, if_neg hvis, if_neg hok]

theorem dispatchFinish_inv (s : ws_crawler) (h : CrawlInv s) : CrawlInv (dispatchFinish s) := by
  unfold dispatchFinish
  split
  · exact h
  · exact h

theorem not_visited_not_mem (s : ws_crawler) (url : CStr)
    (hvis : ¬ ws_crawler_is_visited s url = true) : url ∉ s.visited_urls := by
  simpa [ws_crawler_is_visited] using hvis

theorem s_crawler_dispatch_requests_inv (submitOk : CStr → Bool) (s : ws_crawler) :
    CrawlInv s → CrawlInv (s_crawler_dispatch_requests submitOk s) := by
  induction s using s_crawler_dispatch_requests.induct submitOk with
  | case1 x hq =>
    intro h
    rw [dispatch_eq_nil submitOk x hq]
    exact dispatchFinish_inv x h
  | case2 x url rest hq hlt s1 hvis ih =>
    intro h
    rw [dispatch_eq_visited submitOk x url rest hq hlt hvis]
    exact ih h
  | case3 x url rest hq hlt s1 hvis s2 hok ih =>
    intro h
    rw [dispatch_eq_submit submitOk x url rest hq hlt hvis hok]
    apply ih
    obtain ⟨h1, h2, h3, h4⟩ := h
    have hnv : url ∉ x.visited_urls := not_visited_not_mem _ url hvis
    have hns : url ∉ x.submitted := fun hmem => hnv (h2 url hmem)
    refine ⟨?_, ?_, ?_, ?_⟩
    · simp only [List.nodup_append, List.nodup_cons, List.nodup_nil]
      exact ⟨h1, by simp, by simpa [List.disjoint_singleton] using hns⟩
    · intro u hu
      rcases List.mem_append.mp hu with hu | hu
      · exact List.mem_append_left _ (h2 u hu)
      · exact List.mem_append_right _ hu
    · show x.active_requests + 1 = ((x.inflight ++ [url]).length : Int)
      rw [List.length_append, List.length_singleton]
      push_cast
      omega
    · show x.active_requests + 1 ≤ x.max_concurrent_requests
      omega
  | case4 x url rest hq hlt s1 hvis s2 hok ih =>
    intro h
    rw [dispatch_eq_nosubmit submitOk x url rest hq hlt hvis hok]
    apply ih
    obtain ⟨h1, h2, h3, h4⟩ := h
    exact ⟨h1, fun u hu => List.mem_append_left _ (h2 u hu), h3, h4⟩
  | case5 x url rest hq hge =>
    intro h
    rw [dispatch_eq_nocap submitOk x url rest hq hge]
    exact dispatchFinish_inv x h

theorem add_url_fields (s : ws_crawler) (u : CStr) :
    ((ws_crawler_add_url s u).1).submitted = s.submitted ∧
    ((ws_crawler_add_url s u).1).visited_urls = s.visited_urls ∧
    ((ws_crawler_add_url s u).1).inflight = s.inflight ∧
    ((ws_crawler_add_url s u).1).active_requests = s.active_requests ∧
    ((ws_crawler_add_url s u).1).max_concurrent_requests = s.max_concurrent_requests := by
  unfold ws_crawler_add_url
  split
  · exact ⟨rfl, rfl, rfl, rfl, rfl⟩
  · split
    · exact ⟨rfl, rfl, rfl, rfl, rfl⟩
    · exact ⟨rfl, rfl, rfl, rfl, rfl⟩

theorem foldl_add_url_fields (links : List CStr) (s : ws_crawler) :
    ((links.foldl (fun st l => (ws_crawler_add_url st l).1) s)).submitted = s.submitted ∧
    ((links.foldl (fun st l => (ws_crawler_add_url st l).1) s)).visited_urls = s.visited_urls ∧
    ((links.foldl (fun st l => (ws_crawler_add_url st l).1) s)).inflight = s.inflight ∧
    ((links.foldl (fun st l => (ws_crawler_add_url st l).1) s)).active_requests
      = s.active_requests ∧
    ((links.foldl (fun st l => (ws_crawler_add_url st l).1) s)).max_concurrent_requests
      = s.max_concurrent_requests := by
  induction links generalizing s with
  | nil => exact ⟨rfl, rfl, rfl, rfl, rfl⟩
  | cons l rest ih =>
    simp only [List.foldl_cons]
    obtain ⟨a1, a2, a3, a4, a5⟩ := add_url_fields s l
    obtain ⟨b1, b2, b3, b4, b5⟩ := ih ((ws_crawler_add_url s l).1)
    exact ⟨b1.trans a1, b2.trans a2, b3.trans a3, b4.trans a4, b5.trans a5⟩

theorem complete_cb_inv (s : ws_crawler) (url : CStr) (ok : Bool) (code : Int)
    (links : List CStr) (hin : url ∈ s.inflight) (h : CrawlInv s) :
    CrawlInv (ws_crawl_http_complete_cb s url ok code links) := by
  obtain ⟨h1, h2, h3, h4⟩ := h
  have hlen : (s.inflight.erase url).length = s.inflight.length - 1 :=
    List.length_erase_of_mem hin
  have hpos : 0 < s.inflight.length := List.length_pos_of_mem hin
  have hInv0 : CrawlInv { s with active_requests := s.active_requests - 1
                               , inflight := s.inflight.erase url } := by
    refine ⟨h1, h2, ?_, ?_⟩
    · show s.active_requests - 1 = ((s.inflight.erase url).length : Int)
      rw [hlen]
      omega
    · show s.active_requests - 1 ≤ s.max_concurrent_requests
      omega
  unfold ws_crawl_http_complete_cb
  split
  · split
    · obtain ⟨f1, f2, f3, f4, f5⟩ := foldl_add_url_fields links _
      obtain ⟨g1, g2, g3, g4⟩ := hInv0
      refine ⟨?_, ?_, ?_, ?_⟩
      · rw [f1]; exact g1
      · intro u hu
        rw [f1] at hu
        rw [f2]
        exact g2 u hu
      · rw [f4, f3]; exact g3
      · rw [f4, f5]; exact g4
    · exact hInv0
  · exact hInv0

theorem crawler_step_inv (submitOk : CStr → Bool) (s s' : ws_crawler)
    (hstep : CrawlerStep submitOk s s') (h : CrawlInv s) : CrawlInv s' := by
  cases hstep with
  | add_url url =>
    obtain ⟨a1, a2, a3, a4, a5⟩ := add_url_fields s url
    obtain ⟨h1, h2, h3, h4⟩ := h
    refine ⟨a1 ▸ h1, ?_, ?_, ?_⟩
    · intro u hu
      rw [a1] at hu
      rw [a2]
      exact h2 u hu
    · rw [a4, a3]; exact h3
    · rw [a4, a5]; exact h4
  | dispatch => exact s_crawler_dispatch_requests_inv submitOk s h
  | complete url ok code links hin => exact complete_cb_inv s url ok code links hin h

theorem crawler_new_inv (m : Int) (init : ws_crawler)
    (hnew : ws_crawler_new m = some init) : CrawlInv init := by
  unfold ws_crawler_new at hnew
  split at hnew
  · exact absurd hnew (by simp)
  case isFalse hm =>
    cases hnew
    refine ⟨List.nodup_nil, by simp, by simp, ?_⟩
    show (0 : Int) ≤ m
    omega

theorem crawler_reachable_inv (submitOk : CStr → Bool) (m : Int) (init s : ws_crawler)
    (hnew : ws_crawler_new m = some init) (hr : CrawlerReachable submitOk init s) :
    CrawlInv s := by
  induction hr with
  | refl => exact crawler_new_inv m init hnew
  | tail hab hbc ih => exact crawler_step_inv submitOk _ _ hbc ih

/-! ### Claims C1 and C2 -/

/-- C1: over a whole run (any sequence of add-URL, dispatch and completion
events from a fresh crawler) the submission log has no duplicate URL: the
dispatch loop checks the visited set before submitting and marks the URL
visited at dispatch time; enqueueing (`ws_crawler_add_url`) never touches the
visited set. -/
theorem c1_dedup_no_double_submission (submitOk : CStr → Bool) (m : Int)
    (init s : ws_crawler) (hnew : ws_crawler_new m = some init)
    (hr : CrawlerReachable submitOk init s) :
    s.submitted.Nodup ∧
    (∀ u ∈ s.submitted, u ∈ s.visited_urls) ∧
    (∀ (t : ws_crawler) (u : CStr),
        ((ws_crawler_add_url t u).1).visited_urls = t.visited_urls) := by
  have h := crawler_reachable_inv submitOk m init s hnew hr
  exact ⟨h.1, h.2.1, fun t u => (add_url_fields t u).2.1⟩

/-- Witness for C1: a concrete run — create a crawler with cap 2, enqueue
`http://a/`, run one dispatch round; the submission log of the resulting
state has no duplicates. -/
theorem c1_dedup_no_double_submission_witness :
    (s_crawler_dispatch_requests (fun _ => true)
        ((ws_crawler_add_url initCrawler (str "http://a/")).1)).submitted.Nodup ∧
    (∀ u ∈ (s_crawler_dispatch_requests (fun _ => true)
        ((ws_crawler_add_url initCrawler (str "http://a/")).1)).submitted,
      u ∈ (s_crawler_dispatch_requests (fun _ => true)
        ((ws_crawler_add_url initCrawler (str "http://a/")).1)).visited_urls) ∧
    (∀ (t : ws_crawler) (u : CStr),
        ((ws_crawler_add_url t u).1).visited_urls = t.visited_urls) :=
  c1_dedup_no_double_submission (fun _ => true) 2 initCrawler _ (by decide)
    (Relation.ReflTransGen.tail
      (Relation.ReflTransGen.single
        (CrawlerStep.add_url initCrawler (str "http://a/")))
      (CrawlerStep.dispatch _))

/-- C2: in every reachable crawler state the number of in-flight transfers is
at most the parallelism cap — the dispatch loop submits only below the cap
and counts one per successful submission, the completion handler decrements
by one. -/
theorem c2_bounded_concurrency (submitOk : CStr → Bool) (m : Int)
    (init s : ws_crawler) (hnew : ws_crawler_new m = some init)
    (hr : CrawlerReachable submitOk init s) :
    s.active_requests ≤ s.max_concurrent_requests :=
  (crawler_reachable_inv submitOk m init s hnew hr).2.2.2

/-- Witness for C2: the same concrete run as C1's witness; after one dispatch
round the active-request count is within the cap. -/
theorem c2_bounded_concurrency_witness :
    (s_crawler_dispatch_requests (fun _ => true)
        ((ws_crawler_add_url initCrawler (str "http://a/")).1)).active_requests ≤
      (s_crawler_dispatch_requests (fun _ => true)
        ((ws_crawler_add_url initCrawler (str "http://a/")).1)).max_concurrent_requests :=
  c2_bounded_concurrency (fun _ => true) 2 initCrawler _ (by decide)
    (Relation.ReflTransGen.tail
      (Relation.ReflTransGen.single
        (CrawlerStep.add_url initCrawler (str "http://a/")))
      (CrawlerStep.dispatch _))

/-! ### Claim C4 — callback exclusivity per transfer -/

/-- C4: for a crawler configured with both user callbacks, a completed
transfer fires exactly one of page/error — the page callback iff the
transfer-library result is OK and the HTTP status is in `[200, 300)` — and a
transfer flagged cancelled before its completion is drained fires neither. -/
theorem c4_callback_exclusivity (pset eset cancelled curl_ok : Bool) (code : Int)
    (hp : pset = true) (he : eset = true) :
    (cancelled = false →
      (((transfer_terminal_callbacks pset eset cancelled curl_ok code).1 = true) ↔
        (curl_ok = true ∧ 200 ≤ code ∧ code < 300)) ∧
      ((transfer_terminal_callbacks pset eset cancelled curl_ok code).2 =
        !(transfer_terminal_callbacks pset eset cancelled curl_ok code).1)) ∧
    (cancelled = true →
      transfer_terminal_callbacks pset eset cancelled curl_ok code = (false, false)) := by
  subst hp he
  constructor
  · intro hcan
    subst hcan
    by_cases hc : 200 ≤ code ∧ code < 300
    · cases curl_ok <;>
        simp [transfer_terminal_callbacks, s_process_message_invokes,
          ws_crawl_complete_selects, hc]
    · cases curl_ok <;>
        simp [transfer_terminal_callbacks, s_process_message_invokes,
          ws_crawl_complete_selects, hc]
  · intro hcan
    subst hcan
    simp [transfer_terminal_callbacks, s_process_message_invokes]

/-- Witness for C4: a 204 success fires the page callback (and only it); a
cancelled transfer fires neither callback. -/
theorem c4_callback_exclusivity_witness :
    ((transfer_terminal_callbacks true true false true 204).1 = true ↔
      (true = true ∧ (200 : Int) ≤ 204 ∧ (204 : Int) < 300)) ∧
    transfer_terminal_callbacks true true true false 500 = (false, false) :=
  ⟨((c4_callback_exclusivity true true false true 204 rfl rfl).1 rfl).1,
    (c4_callback_exclusivity true true true false 500 rfl rfl).2 rfl⟩

/-! ### Reactor helper lemmas (claim C10) -/

theorem internal_cb_eq_persistent (s : ws_event_base) (hdl : ws_event_handle)
    (hper : hdl.is_persistent = true) :
    ws_event_internal_cb s hdl =
      { s with fire_log := s.fire_log ++ [(hdl.id, hdl.is_persistent)] } := by
  unfold ws_event_internal_cb
  cases hdl.ty <;> simp [hper]

theorem internal_cb_eq_nonpersistent (s : ws_event_base) (hdl : ws_event_handle)
    (hper : hdl.is_persistent = false) :
    ws_event_internal_cb s hdl =
      { s with events := s.events.eraseP (fun e => e.id == hdl.id)
             , fire_log := s.fire_log ++ [(hdl.id, hdl.is_persistent)] } := by
  unfold ws_event_internal_cb ws_event_del
  cases hdl.ty <;> simp [hper]

theorem eraseP_id_none (l : List ws_event_handle) (i : Nat)
    (hnd : (l.map ws_event_handle.id).Nodup) (hex : ∃ h ∈ l, h.id = i) :
    ∀ e ∈ l.eraseP (fun x => x.id == i), e.id ≠ i := by
  induction l with
  | nil => simp
  | cons a rest ih =>
    intro e he
    rw [List.map_cons, List.nodup_cons] at hnd
    by_cases ha : a.id = i
    · rw [List.eraseP_cons_of_pos (by simp [ha])] at he
      intro hei
      exact hnd.1 (ha ▸ hei ▸ List.mem_map.mpr ⟨e, he, rfl⟩)
    · rw [List.eraseP_cons_of_neg (by simp [ha])] at he
      rcases List.mem_cons.mp he with h | h
      · subst h
        exact ha
      · obtain ⟨w, hw, hwi⟩ := hex
        rcases List.mem_cons.mp hw with hwa | hwr
        · subst hwa
          exact absurd hwi ha
        · exact ih hnd.2 ⟨w, hwr, hwi⟩ e h

theorem reactor_fire_log_filter_step (log : List (Nat × Bool)) (entry : Nat × Bool) (i : Nat)
    (hcase : entry.2 = true ∨ (entry.1 = i → List.filter (fun pr => pr.1 == i && pr.2 == false) log = []))
    (h : (List.filter (fun pr => pr.1 == i && pr.2 == false) log).length ≤ 1) :
    (List.filter (fun pr => pr.1 == i && pr.2 == false) (log ++ [entry])).length ≤ 1 := by
  rw [List.filter_append]
  by_cases hmatch : ((entry.1 == i && entry.2 == false) = true)
  · have hone : List.filter (fun pr => pr.1 == i && pr.2 == false) [entry] = [entry] := by
      simp only [List.filter_cons, List.filter_nil, if_pos hmatch]
    rw [hone]
    have hm := hmatch
    rw [Bool.and_eq_true, beq_iff_eq, beq_iff_eq] at hm
    rcases hcase with hc | hc
    · rw [hc] at hm
      exact absurd hm.2 (by simp)
    · rw [hc hm.1]
      simp
  · have hnil : List.filter (fun pr => pr.1 == i && pr.2 == false) [entry] = [] := by
      simp only [List.filter_cons, List.filter_nil, if_neg hmatch]
    rw [hnil, List.append_nil]
    exact h

theorem reactor_step_inv (s s' : ws_event_base) (hstep : ReactorStep s s')
    (h : ReactorInv s) : ReactorInv s' := by
  obtain ⟨h1, h2, h3, h4, h5⟩ := h
  cases hstep with
  | register ty p =>
    simp only [ws_event_register]
    refine ⟨?_, ?_, ?_, ?_, ?_⟩
    · intro e he
      rcases List.mem_append.mp he with he | he
      · exact Nat.lt_succ_of_lt (h1 e he)
      · simp at he
        subst he
        exact Nat.lt_succ_self _
    · rw [List.map_append, List.nodup_append]
      refine ⟨h2, by simp, ?_⟩
      intro i hi
      simp only [List.map_cons, List.map_nil, List.mem_singleton]
      intro hie
      obtain ⟨e, he, hei⟩ := List.mem_map.mp hi
      have hlt := h1 e he
      omega
    · intro e he hper pr hpr
      rcases List.mem_append.mp he with he | he
      · exact h3 e he hper pr hpr
      · simp at he
        subst he
        intro hcontra
        exact absurd (hcontra ▸ h4 pr hpr) (by simp)
    · intro pr hpr
      exact Nat.lt_succ_of_lt (h4 pr hpr)
    · exact h5
  | fire hdl hmem =>
    rcases Bool.eq_false_or_eq_true hdl.is_persistent with hperT | hperF
    · rw [internal_cb_eq_persistent s hdl hperT]
      refine ⟨h1, h2, ?_, ?_, ?_⟩
      · intro e he hpe pr hpr
        rcases List.mem_append.mp hpr with hpr | hpr
        · exact h3 e he hpe pr hpr
        · simp only [List.mem_singleton] at hpr
          subst hpr
          intro hei
          have heq := List.inj_on_of_nodup_map h2 he hmem hei.symm
          rw [heq] at hpe
          rw [hperT] at hpe
          exact Bool.true_eq_false.mp hpe
      · intro pr hpr
        rcases List.mem_append.mp hpr with hpr | hpr
        · exact h4 pr hpr
        · simp only [List.mem_singleton] at hpr
          subst hpr
          exact h1 hdl hmem
      · intro i
        refine reactor_fire_log_filter_step s.fire_log (hdl.id, hdl.is_persistent) i ?_ (h5 i)
        left
        exact hperT
    · rw [internal_cb_eq_nonpersistent s hdl hperF]
      refine ⟨?_, ?_, ?_, ?_, ?_⟩
      · intro e he
        exact h1 e (List.mem_of_mem_eraseP he)
      · exact h2.sublist (List.Sublist.map _ (List.eraseP_sublist _))
      · intro e he hpe pr hpr
        rcases List.mem_append.mp hpr with hpr | hpr
        · exact h3 e (List.mem_of_mem_eraseP he) hpe pr hpr
        · simp only [List.mem_singleton] at hpr
          subst hpr
          exact fun hc => (eraseP_id_none s.events hdl.id h2 ⟨hdl, hmem, rfl⟩ e he) hc.symm
      · intro pr hpr
        rcases List.mem_append.mp hpr with hpr | hpr
        · exact h4 pr hpr
        · simp only [List.mem_singleton] at hpr
          subst hpr
          exact h1 hdl hmem
      · intro i
        refine reactor_fire_log_filter_step s.fire_log (hdl.id, hdl.is_persistent) i ?_ (h5 i)
        right
        intro hi
        rw [List.filter_eq_nil_iff]
        intro pr hpr
        have hne := h3 hdl hmem hperF pr hpr
        simp only [Bool.and_eq_true, beq_iff_eq, not_and]
        intro hpi
        exact absurd (hpi.trans hi.symm) hne
  | del hdl hmem =>
    unfold ws_event_del
    refine ⟨?_, ?_, ?_, h4, h5⟩
    · intro e he
      exact h1 e (List.mem_of_mem_eraseP he)
    · exact h2.sublist (List.Sublist.map _ (List.eraseP_sublist _))
    · intro e he hpe pr hpr
      exact h3 e (List.mem_of_mem_eraseP he) hpe pr hpr

theorem reactor_reachable_inv (s : ws_event_base) (hr : ReactorReachable s) :
    ReactorInv s := by
  induction hr with
  | refl =>
    refine ⟨by simp [ws_event_base_new], by simp [ws_event_base_new],
      by simp [ws_event_base_new], by simp [ws_event_base_new], ?_⟩
    intro i
    simp [ws_event_base_new]
  | tail hab hbc ih => exact reactor_step_inv _ _ hbc ih

/-! ### Claim C10 — non-persistent events fire once -/

/-- C10: in every reachable reactor state, (1) no non-persistent handle's
callback has run twice (its id occurs at most once among the non-persistent
entries of the fire log); (2) after `ws_event_internal_cb` runs a registered
non-persistent handle's callback, the reactor has deleted the handle — it is
no longer registered; (3) a persistent handle remains registered after its
callback runs. -/
theorem c10_nonpersistent_single_fire (s : ws_event_base) (hr : ReactorReachable s) :
    (∀ i : Nat,
        (s.fire_log.filter (fun pr => pr.1 == i && pr.2 == false)).length ≤ 1) ∧
    (∀ h ∈ s.events, h.is_persistent = false →
        h ∉ (ws_event_internal_cb s h).events) ∧
    (∀ h ∈ s.events, h.is_persistent = true →
        h ∈ (ws_event_internal_cb s h).events) := by
  obtain ⟨h1, h2, h3, h4, h5⟩ := reactor_reachable_inv s hr
  refine ⟨h5, ?_, ?_⟩
  · intro h hmem hper hcontra
    rw [internal_cb_eq_nonpersistent s h hper] at hcontra
    exact eraseP_id_none s.events h.id h2 ⟨h, hmem, rfl⟩ h hcontra rfl
  · intro h hmem hper
    rw [internal_cb_eq_persistent s h hper]
    exact hmem

/-- Witness for C10: register one non-persistent timer on a fresh reactor and
fire it; in the state just before the fire the theorem applies — the handle
is gone from the tree after its callback, and the log never shows a
non-persistent id twice. -/
theorem c10_nonpersistent_single_fire_witness :
    (∀ i : Nat,
        (((ws_event_register ws_event_base_new WsEvType.time false).1).fire_log.filter
          (fun pr => pr.1 == i && pr.2 == false)).length ≤ 1) ∧
    (⟨1, WsEvType.time, false⟩ : ws_event_handle) ∉
      (ws_event_internal_cb (ws_event_register ws_event_base_new WsEvType.time false).1
        ⟨1, WsEvType.time, false⟩).events :=
  ⟨(c10_nonpersistent_single_fire (ws_event_register ws_event_base_new WsEvType.time false).1
      (Relation.ReflTransGen.single
        (ReactorStep.register ws_event_base_new WsEvType.time false))).1,
    (c10_nonpersistent_single_fire (ws_event_register ws_event_base_new WsEvType.time false).1
      (Relation.ReflTransGen.single
        (ReactorStep.register ws_event_base_new WsEvType.time false))).2.1
      ⟨1, WsEvType.time, false⟩ (by decide) rfl⟩

end Wscan
